import Mathlib

/-!
Shallow embedding of the pysudoku solver (src/sudoku.py) and verification of
the frozen claims about it.

The Python program mutates a shared board of `SIZE * SIZE` cells; rows,
columns and boxes are views into that storage.  We embed the board as a list
of cells and every mutating method as a state-passing function.  The mutual
recursion `Celda.setvalor` / `Celda.quitar` / `Grupo.quitar` is embedded with
an explicit fuel argument; the top-level wrappers instantiate the fuel with
`2 * (total number of candidates) + 2`, which is proved sufficient below
(lemmas `setvalorF_stable`, `celdaQuitarF_stable`), so the wrappers compute
exactly what the unbounded Python recursion computes.

The global `SIZE` constant of the source (line 15, with the comment that the
value must be a perfect square) is a parameter `N` of every definition here.
-/

namespace PySudoku

/-- One cell of the board: `valor` is the committed value (`none` while
unsolved), `posible` the list of remaining candidates, `original` the
given-flag (`Celda.__init__`, src/sudoku.py lines 62-67). -/
structure Celda where
  valor : Option Nat
  posible : List Nat
  original : Bool
  deriving DecidableEq, Repr

/-- Fresh cell: no value, candidates `[1, ..., N]`, not a given. -/
def freshCelda (N : Nat) : Celda :=
  { valor := none, posible := List.range' 1 N, original := false }

/-- The board is the canonical storage of the `N * N` cells
(`Tablero.celdas`). -/
def Tablero := List Celda

instance : DecidableEq Tablero := inferInstanceAs (DecidableEq (List Celda))

/-- Default cell used by the total indexing function; indices produced by the
embedding are always in range. -/
def defCelda : Celda := { valor := none, posible := [], original := false }

/-- Read the cell at index `i` (`self.celdas[i]`). -/
def getCell (b : Tablero) (i : Nat) : Celda :=
  List.getD b i defCelda

/-- Write the cell at index `i`. -/
def setCell (b : Tablero) (i : Nat) (c : Celda) : Tablero :=
  List.set b i c

/-- `Celda.vacia` (src/sudoku.py line 69): the cell holds no value. -/
def vacia (c : Celda) : Bool := c.valor.isNone

/-- Indices of row `i` in row-major cell storage (`Tablero.__init__` groups
cell `(i, j)` into `filas[i]`, appending in `j` order). -/
def filaIdx (N i : Nat) : List Nat :=
  (List.range N).map (fun j => i * N + j)

/-- Indices of column `j` (`columnas[j]`, appended in `i` order). -/
def colIdx (N j : Nat) : List Nat :=
  (List.range N).map (fun i => i * N + j)

/-- Integer square root (the number of positive `k` with `k * k ≤ n`),
written with a structural recursion so the kernel can evaluate it. -/
def raiz (n : Nat) : Nat :=
  (List.range (n + 1)).countP (fun k => decide (0 < k ∧ k * k ≤ n))

/-- Box number of the cell with flat index `t`: the source computes
`int(j / aux) + int(i / aux) * aux` with `aux = int(math.sqrt(SIZE))`. -/
def boxOf (N t : Nat) : Nat :=
  (t % N) / raiz N + (t / N) / raiz N * raiz N

/-- Indices of box `k` (`cuadros[k]`, appended in row-major sweep order). -/
def cuadroIdx (N k : Nat) : List Nat :=
  (List.range (N * N)).filter (fun t => boxOf N t == k)

/-- The three groups of a cell in the iteration order of `Celda.grupos`
(a dict keyed by type; insertion order is row, column, box, see
`Tablero.__init__` lines 369-375). -/
def gruposOf (N t : Nat) : List (List Nat) :=
  [filaIdx N (t / N), colIdx N (t % N), cuadroIdx N (boxOf N t)]

/-- Total number of remaining candidates on the board; the termination
measure of the elimination cascade. -/
def medida (b : Tablero) : Nat :=
  (b.map (fun c => c.posible.length)).sum

/-- One level of the mutually recursive elimination cascade
(`Celda.setvalor` / `Grupo.quitar` / `Celda.quitar`).  The recursion is
realised as a structurally decreasing tower of levels so that the kernel
can evaluate it; level `n + 1` may call back into level `n`. -/
structure Casc where
  sv : Nat → Nat → Bool → Bool → Tablero → Tablero × Bool
  gq : List Nat → Nat → Nat → Bool → Tablero → Tablero × Bool
  cq : Nat → Nat → Bool → Tablero → Tablero × Bool

/-- The sweep of `Grupo.quitar` (src/sudoku.py lines 211-222) over the
group's cell list, parameterised by the `Celda.quitar` of the current
level: ask every *other* empty cell to drop candidate `v`, stopping at the
first cell that reports failure. -/
def gqGo (cq : Nat → Nat → Bool → Tablero → Tablero × Bool) :
    List Nat → Nat → Nat → Bool → Tablero → Tablero × Bool
  | [], _, _, _, b => (b, true)
  | i :: rest, idx, v, lg, b =>
    if i ≠ idx ∧ vacia (getCell b i) then
      let r := cq i v lg b
      if r.2 then gqGo cq rest idx v lg r.1 else (r.1, false)
    else
      gqGo cq rest idx v lg b

/-- The tower of cascade levels.  `sv` embeds `Celda.setvalor`
(src/sudoku.py lines 77-101): `o` is the `original` argument and `lg`
records whether a logger object was passed (the logger is only stored or
printed, never read, but the source passes it positionally into `original`
at several call sites, so the flag must be threaded).  On success the cell
is committed first and then each of its three groups is asked to eliminate
the value, the boolean results being ignored, exactly as in the source.
`cq` embeds `Celda.quitar` (lines 103-130): remove `v` from the candidates
of an empty cell, and auto-assign the sole remaining candidate; the source
calls `self.setvalor(self.posible[0], logger)`, passing the logger
positionally as `original`, so the cascaded assignment receives
`original := lg` and no logger. -/
def cascada (N : Nat) : Nat → Casc
  | 0 =>
    { sv := fun _ _ _ _ b => (b, false)
      gq := gqGo (fun _ _ _ b => (b, true))
      cq := fun _ _ _ b => (b, true) }
  | f + 1 =>
    let prev := cascada N f
    let cq : Nat → Nat → Bool → Tablero → Tablero × Bool := fun i v lg b =>
      let c := getCell b i
      if vacia c ∧ v ∈ c.posible then
        let ps := c.posible.erase v
        let b1 := setCell b i { c with posible := ps }
        match ps with
        | [w] => prev.sv i w lg false b1
        | _ => (b1, !ps.isEmpty)
      else
        (b, !c.posible.isEmpty)
    { sv := fun idx v o lg b =>
        if v ∈ (getCell b idx).posible then
          let b1 := setCell b idx { valor := some v, posible := [v], original := o }
          let b2 := (prev.gq (filaIdx N (idx / N)) idx v lg b1).1
          let b3 := (prev.gq (colIdx N (idx % N)) idx v lg b2).1
          let b4 := (prev.gq (cuadroIdx N (boxOf N idx)) idx v lg b3).1
          (b4, true)
        else
          (b, false)
      gq := gqGo cq
      cq := cq }

/-- Fuel-indexed `Celda.setvalor`. -/
def setvalorF (N fuel idx v : Nat) (o lg : Bool) (b : Tablero) : Tablero × Bool :=
  (cascada N fuel).sv idx v o lg b

/-- Fuel-indexed `Grupo.quitar`. -/
def grupoQuitarF (N fuel : Nat) (l : List Nat) (idx v : Nat) (lg : Bool) (b : Tablero) :
    Tablero × Bool :=
  (cascada N fuel).gq l idx v lg b

/-- Fuel-indexed `Celda.quitar`. -/
def celdaQuitarF (N fuel i v : Nat) (lg : Bool) (b : Tablero) : Tablero × Bool :=
  (cascada N fuel).cq i v lg b

/-- `Celda.setvalor` with the fuel instantiated at a provably sufficient
bound; this is the function the rest of the embedding uses. -/
def setvalor (N idx v : Nat) (o lg : Bool) (b : Tablero) : Tablero × Bool :=
  setvalorF N (2 * medida b + 2) idx v o lg b

/-- `Celda.quitar` with sufficient fuel. -/
def celdaQuitar (N i v : Nat) (lg : Bool) (b : Tablero) : Tablero × Bool :=
  celdaQuitarF N (2 * medida b + 2) i v lg b

/-- `Celda.incluye` (src/sudoku.py lines 143-153): subset test
`set(lista) ⊆ set(self.posible)`. -/
def incluyeC (c : Celda) (lista : List Nat) : Bool :=
  lista.all (fun x => x ∈ c.posible)

/-- `Grupo.incluye` (lines 265-278): number of cells of the group whose
candidate set includes the whole combination. -/
def grupoIncluye (b : Tablero) (g : List Nat) (comb : List Nat) : Nat :=
  (g.map (fun i => if incluyeC (getCell b i) comb then 1 else 0)).sum

/-- `Grupo.incluye_unit` (lines 280-296): number of (cell, element) pairs
where the cell includes the element but not the whole combination. -/
def grupoIncluyeUnit (b : Tablero) (g : List Nat) (comb : List Nat) : Nat :=
  (g.map (fun i =>
    (comb.map (fun e =>
      if incluyeC (getCell b i) [e] && !incluyeC (getCell b i) comb then 1 else 0)).sum)).sum

/-- Inner loop of `Grupo.asignar` (lines 311-315): drop every value of
`resto` from cell `i`, counting the boolean results of `quitar` as the
source does (`cambios += celda.quitar(valor, logger)` adds 1 even for a
successful no-op). -/
def asignarCelda (N : Nat) (lg : Bool) (i : Nat) (resto : List Nat) (b : Tablero) : Tablero × Nat :=
  match resto with
  | [] => (b, 0)
  | v :: rest =>
    let r := celdaQuitar N i v lg b
    let s := asignarCelda N lg i rest r.1
    (s.1, (if r.2 then 1 else 0) + s.2)

/-- Cell loop of `Grupo.asignar` (lines 298-317). -/
def asignarAux (N : Nat) (lg : Bool) (comb resto : List Nat) (l : List Nat) (b : Tablero) : Tablero × Nat :=
  match l with
  | [] => (b, 0)
  | i :: rest =>
    let c := getCell b i
    if vacia c && incluyeC c comb then
      let r := asignarCelda N lg i resto b
      let s := asignarAux N lg comb resto rest r.1
      (s.1, r.2 + s.2)
    else
      asignarAux N lg comb resto rest b

/-- `Grupo.asignar` (lines 298-317): for every empty cell including the
combination, eliminate every candidate not in the combination. -/
def asignar (N : Nat) (lg : Bool) (g comb : List Nat) (b : Tablero) : Tablero × Nat :=
  asignarAux N lg comb ((List.range' 1 N).filter (fun x => x ∉ comb)) g b

/-- Candidate loop of the naked-single rule (lines 330-337): for each value
of the snapshot of `celda1.posible`, if exactly one cell of the group
includes it, assign it to `celda1`; the change counter is incremented
whether or not the assignment succeeded, and the logger is passed
positionally into `original` (`celda1.setvalor(valor, logger)`). -/
def nsInner (N : Nat) (lg : Bool) (g : List Nat) (i : Nat) (vs : List Nat) (b : Tablero) : Tablero × Nat :=
  match vs with
  | [] => (b, 0)
  | v :: rest =>
    if grupoIncluye b g [v] == 1 then
      let r := setvalor N i v lg false b
      let s := nsInner N lg g i rest r.1
      (s.1, 1 + s.2)
    else
      nsInner N lg g i rest b

/-- Cell loop of the naked-single rule (lines 329-337). -/
def nsOuter (N : Nat) (lg : Bool) (g : List Nat) (l : List Nat) (b : Tablero) : Tablero × Nat :=
  match l with
  | [] => (b, 0)
  | i :: rest =>
    if vacia (getCell b i) then
      let r := nsInner N lg g i (getCell b i).posible b
      let s := nsOuter N lg g rest r.1
      (s.1, r.2 + s.2)
    else
      nsOuter N lg g rest b

/-- Combinations of a list in the enumeration order of Python
`itertools.combinations`. -/
def combinaciones : Nat → List Nat → List (List Nat)
  | 0, _ => [[]]
  | _ + 1, [] => []
  | k + 1, x :: xs => (combinaciones k xs).map (fun c => x :: c) ++ combinaciones (k + 1) xs

/-- Combination loop of the subset rule (lines 343-350). -/
def combLoop (N : Nat) (lg : Bool) (g : List Nat) (largo : Nat) (cs : List (List Nat)) (b : Tablero) : Tablero × Nat :=
  match cs with
  | [] => (b, 0)
  | comb :: rest =>
    let cantidad := grupoIncluye b g comb
    if cantidad == largo && largo == comb.length then
      if grupoIncluyeUnit b g comb == 0 then
        let r := asignar N lg g comb b
        let s := combLoop N lg g largo rest r.1
        (s.1, r.2 + s.2)
      else
        combLoop N lg g largo rest b
    else
      combLoop N lg g largo rest b

/-- Length loop of the subset rule (lines 342-350): the range bound is the
length of `celda.posible` when the cell is reached, while `combinations`
re-reads the current candidate list at every `largo` iteration. -/
def largoLoop (N : Nat) (lg : Bool) (g : List Nat) (i : Nat) (ls : List Nat) (b : Tablero) : Tablero × Nat :=
  match ls with
  | [] => (b, 0)
  | largo :: rest =>
    let r := combLoop N lg g largo (combinaciones largo (getCell b i).posible) b
    let s := largoLoop N lg g i rest r.1
    (s.1, r.2 + s.2)

/-- Cell loop of the subset rule (lines 340-350); note the source does not
test `vacia` here (an assigned cell has a single candidate, so its range of
lengths is empty). -/
def subsetOuter (N : Nat) (lg : Bool) (g : List Nat) (l : List Nat) (b : Tablero) : Tablero × Nat :=
  match l with
  | [] => (b, 0)
  | i :: rest =>
    let n0 := (getCell b i).posible.length
    let r := largoLoop N lg g i (List.range' 1 (n0 - 1)) b
    let s := subsetOuter N lg g rest r.1
    (s.1, r.2 + s.2)

/-- `Grupo.revisar` (lines 319-351): the naked-single rule followed by the
subset rule, returning the number of (reported) changes. -/
def grupoRevisar (N : Nat) (lg : Bool) (g : List Nat) (b : Tablero) : Tablero × Nat :=
  let r := nsOuter N lg g g b
  let s := subsetOuter N lg g g r.1
  (s.1, r.2 + s.2)

/-- All groups of the board in the order `Tablero.revisar` visits them:
rows, then columns, then boxes. -/
def gruposAll (N : Nat) : List (List Nat) :=
  (List.range N).map (filaIdx N) ++ (List.range N).map (colIdx N) ++ (List.range N).map (cuadroIdx N)

/-- One round of `Tablero.revisar` (lines 405-412): revise every group,
summing the changes. -/
def pasada (N : Nat) (lg : Bool) (gs : List (List Nat)) (b : Tablero) : Tablero × Nat :=
  match gs with
  | [] => (b, 0)
  | g :: rest =>
    let r := grupoRevisar N lg g b
    let s := pasada N lg rest r.1
    (s.1, r.2 + s.2)

/-- `LIMITE` (src/sudoku.py line 14). -/
def LIMITE : Nat := 5

/-- Round loop of `Tablero.revisar` (lines 402-416): up to `LIMITE` rounds,
stopping as soon as a round reports zero changes; a round's changes are
added to the total only when they are nonzero, which is the same sum. -/
def revisarLoop (N : Nat) (lg : Bool) (k : Nat) (b : Tablero) (tot : Nat) : Tablero × Nat :=
  match k with
  | 0 => (b, tot)
  | j + 1 =>
    let r := pasada N lg (gruposAll N) b
    if r.2 == 0 then (r.1, tot) else revisarLoop N lg j r.1 (tot + r.2)

/-- `Tablero.revisar` (lines 402-416). -/
def revisar (N : Nat) (lg : Bool) (b : Tablero) : Tablero × Nat :=
  revisarLoop N lg LIMITE b 0

/-- A fresh board: `Tablero.__init__` creates `N * N` fresh cells. -/
def nuevoTablero (N : Nat) : Tablero :=
  List.replicate (N * N) (freshCelda N)

/-- Row-major traversal order of `Tablero.cargar`. -/
def idxPairs (N : Nat) : List (Nat × Nat) :=
  (List.range N).flatMap (fun i => (List.range N).map (fun j => (i, j)))

/-- Position loop of `Tablero.cargar` (lines 477-491): each nonzero entry is
assigned with `original = True`; the method returns `False` at the first
rejected assignment, keeping the mutations already made. -/
def cargarAux (N : Nat) (lg : Bool) (grid : List (List Nat)) (l : List (Nat × Nat)) (b : Tablero) : Tablero × Bool :=
  match l with
  | [] => (b, true)
  | (i, j) :: rest =>
    let v := (grid.getD i []).getD j 0
    if v ≠ 0 then
      let r := setvalor N (i * N + j) v true lg b
      if r.2 then cargarAux N lg grid rest r.1 else (r.1, false)
    else
      cargarAux N lg grid rest b

/-- `Tablero.cargar` (lines 477-491). -/
def cargar (N : Nat) (lg : Bool) (grid : List (List Nat)) (b : Tablero) : Tablero × Bool :=
  cargarAux N lg grid (idxPairs N) b

/-- `Tablero.copiar` (lines 377-387): a fresh board whose cells receive the
source's `valor` and a copy of `posible`; the `original` flag is *not*
copied, so it keeps the constructor value `False`. -/
def copiar (N : Nat) (b : Tablero) : Tablero :=
  (List.range (N * N)).map (fun i =>
    { valor := (getCell b i).valor, posible := (getCell b i).posible, original := false })

/-- `Tablero.replicar` (lines 493-501): overwrite own `valor` and `posible`
from the source board, index for index, keeping own `original` flags. -/
def replicar (N : Nat) (self src : Tablero) : Tablero :=
  (List.range (N * N)).map (fun i =>
    { valor := (getCell src i).valor, posible := (getCell src i).posible,
      original := (getCell self i).original })

/-- `Tablero.completo` (lines 503-512). -/
def completo (N : Nat) (b : Tablero) : Bool :=
  (List.range (N * N)).all (fun i => !vacia (getCell b i))

/-- Duplicate scan of one group in `Tablero.valido` (lines 528-534). -/
def sinDupAux (b : Tablero) (l : List Nat) (vistos : List Nat) : Bool :=
  match l with
  | [] => true
  | i :: rest =>
    match (getCell b i).valor with
    | none => sinDupAux b rest vistos
    | some v => if v ∈ vistos then false else sinDupAux b rest (v :: vistos)

/-- `Tablero.valido` (lines 514-535): no empty cell with an empty candidate
list, and no duplicated assigned value inside any group. -/
def valido (N : Nat) (b : Tablero) : Bool :=
  ((List.range (N * N)).all (fun i =>
      !(vacia (getCell b i) && (getCell b i).posible.isEmpty))) &&
  (gruposAll N).all (fun g => sinDupAux b g [])

/-- Value-removal scan of `Grupo.verificar` (lines 246-263): walk the cells,
failing on an empty cell, removing each value from the running total;
`total.remove` is guarded by a membership test, which is `List.erase`. -/
def grupoVerificarAux (b : Tablero) (l : List Nat) (total : List Nat) : Bool :=
  match l with
  | [] => total.isEmpty
  | i :: rest =>
    match (getCell b i).valor with
    | none => false
    | some v => grupoVerificarAux b rest (total.erase v)

/-- `Grupo.verificar` (lines 246-263). -/
def grupoVerificar (N : Nat) (b : Tablero) (g : List Nat) : Bool :=
  grupoVerificarAux b g (List.range' 1 N)

/-- `Tablero.verificar` (lines 537-555): every row, column and box passes
`Grupo.verificar`. -/
def verificar (N : Nat) (b : Tablero) : Bool :=
  (gruposAll N).all (fun g => grupoVerificar N b g)

/-- Scan of the minimum-remaining-values heuristic (lines 437-442): keep the
first index strictly improving the minimum, starting from `SIZE + 1`;
only empty cells with `0 < len(posible) < min` are considered. -/
def mrvAux (b : Tablero) (l : List Nat) (best : Option Nat) (m : Nat) : Option Nat × Nat :=
  match l with
  | [] => (best, m)
  | i :: rest =>
    let c := getCell b i
    if vacia c ∧ 0 < c.posible.length ∧ c.posible.length < m then
      mrvAux b rest (some i) c.posible.length
    else
      mrvAux b rest best m

/-- The `celda_index` selected by `Tablero.resolver` (lines 437-442). -/
def mrvIndex (N : Nat) (b : Tablero) : Option Nat :=
  (mrvAux b (List.range (N * N)) none (N + 1)).1

/-- Number of empty cells of the board. -/
def countEmpty (N : Nat) (b : Tablero) : Nat :=
  ((List.range (N * N)).filter (fun i => vacia (getCell b i))).length

/-- One level of the recursive search (`Tablero.resolver` and its
candidate loop), realised as a structurally decreasing tower of levels so
that the kernel can evaluate it. -/
structure Busq where
  rf : Bool → Tablero → Option (Tablero × Nat)
  rl : Bool → Tablero → Nat → Nat → List Nat → Option (Tablero × Nat)

/-- Candidate loop of `Tablero.resolver` (src/sudoku.py lines 448-475),
parameterised by the recursive solver of the current level: clone the
board, assign the candidate on the clone (`setvalor(valor, logger)` passes
the logger positionally into `original`), recurse, and on the first clone
that verifies, replicate it into `self` and return the accumulated
changes.  A `none` result models the `TypeError` a deeper level raised,
which propagates out of the loop. -/
def rlGo (N : Nat) (rf : Bool → Tablero → Option (Tablero × Nat)) (lg : Bool) (b1 : Tablero)
    (cambios idx : Nat) : List Nat → Option (Tablero × Nat)
  | [] => some (b1, cambios)
  | v :: rest =>
    let r := setvalor N idx v lg false (copiar N b1)
    if r.2 then
      match rf lg r.1 with
      | none => none
      | some (copia2, resultado) =>
        if verificar N copia2 then some (replicar N b1 copia2, cambios + resultado)
        else rlGo N rf lg b1 cambios idx rest
    else
      rlGo N rf lg b1 cambios idx rest

/-- The tower of search levels.  `rf` embeds `Tablero.resolver`
(src/sudoku.py lines 418-475).  The result is `none` when the Python code
raises: with `celda_index = None` (the guard at lines 444-445 is commented
out) the indexing `self.celdas[celda_index]` throws a `TypeError`, which
propagates out of every enclosing recursive call.  Otherwise the result is
the final state of `self` with the returned change count. -/
def busqueda (N : Nat) : Nat → Busq
  | 0 =>
    { rf := fun _ _ => none
      rl := rlGo N (fun _ _ => none) }
  | f + 1 =>
    let prev := busqueda N f
    let rf : Bool → Tablero → Option (Tablero × Nat) := fun lg b =>
      if !valido N b then some (b, 0)
      else
        let r := revisar N lg b
        if verificar N r.1 then some (r.1, r.2)
        else
          match mrvIndex N r.1 with
          | none => none
          | some idx => prev.rl lg r.1 r.2 idx (getCell r.1 idx).posible
    { rf := rf
      rl := rlGo N rf }

/-- Fuel-indexed `Tablero.resolver`. -/
def resolverF (N fuel : Nat) (lg : Bool) (b : Tablero) : Option (Tablero × Nat) :=
  (busqueda N fuel).rf lg b

/-- Fuel-indexed candidate loop of `Tablero.resolver`. -/
def resolverLoop (N fuel : Nat) (lg : Bool) (b1 : Tablero) (cambios idx : Nat)
    (vs : List Nat) : Option (Tablero × Nat) :=
  (busqueda N fuel).rl lg b1 cambios idx vs

/-- `Tablero.resolver` with the recursion fuel instantiated at
`countEmpty + 1`, which is proved sufficient below: every recursive call is
made on a board with strictly fewer empty cells. -/
def resolver (N : Nat) (lg : Bool) (b : Tablero) : Option (Tablero × Nat) :=
  resolverF N (countEmpty N b + 1) lg b

/-- `Grupo.quitar` with sufficient fuel. -/
def grupoQuitar (N : Nat) (l : List Nat) (idx v : Nat) (lg : Bool) (b : Tablero) : Tablero × Bool :=
  grupoQuitarF N (2 * medida b + 1) l idx v lg b

/-- The solving-relevant projection of a board: every cell's value and
candidate list, without the presentation-only given-flag. -/
def vp (b : Tablero) : List (Option Nat × List Nat) :=
  b.map (fun c => (c.valor, c.posible))

/-- The assigned values of a group, in cell order. -/
def valoresAsignados (b : Tablero) (g : List Nat) : List Nat :=
  g.filterMap (fun i => (getCell b i).valor)

/-- The invariant asserted by the spec (its claim C2): in every group the
assigned values are pairwise distinct, and no empty cell keeps a candidate
equal to a value committed elsewhere in one of its groups. -/
def invarianteEspec (N : Nat) (b : Tablero) : Prop :=
  ∀ g ∈ gruposAll N, (valoresAsignados b g).Nodup ∧
    ∀ i ∈ g, vacia (getCell b i) →
      ∀ j ∈ g, j ≠ i → ∀ w, (getCell b j).valor = some w →
        w ∉ (getCell b i).posible

instance (N : Nat) (b : Tablero) : Decidable (invarianteEspec N b) := by
  unfold invarianteEspec
  infer_instance

/-- One propagation round: `revise()` on every row, then every column, then
every box. -/
def ronda (N : Nat) (lg : Bool) (b : Tablero) : Tablero :=
  (pasada N lg (gruposAll N) b).1

/-- The change count reported by one propagation round. -/
def rondaCambios (N : Nat) (lg : Bool) (b : Tablero) : Nat :=
  (pasada N lg (gruposAll N) b).2

/-- The board after `k` propagation rounds. -/
def rondasIter (N : Nat) (lg : Bool) : Nat → Tablero → Tablero
  | 0, b => b
  | k + 1, b => rondasIter N lg k (ronda N lg b)

/-- The total change count reported by the first `k` propagation rounds. -/
def sumaCambios (N : Nat) (lg : Bool) : Nat → Tablero → Nat
  | 0, _ => 0
  | k + 1, b => rondaCambios N lg b + sumaCambios N lg k (ronda N lg b)

/-- The candidate loop of the search step as the spec describes it: try the
selected cell's candidates in list order; for each, clone the whole board,
assign the candidate on the clone, solve the clone recursively, and at the
first clone that is then solved, replicate it into the original and return
the accumulated changes; if no candidate works, return the board and change
count of the propagation pre-pass. -/
def intentaCandidatos (N : Nat) (lg : Bool) (b1 : Tablero) (cambios idx : Nat) :
    List Nat → Option (Tablero × Nat)
  | [] => some (b1, cambios)
  | v :: vs =>
    match resolver N lg (setvalor N idx v lg false (copiar N b1)).1 with
    | none => none
    | some (c2, resultado) =>
      if verificar N c2 then some (replicar N b1 c2, cambios + resultado)
      else intentaCandidatos N lg b1 cambios idx vs

/-- An assigned cell holding value `v`. -/
def cc (v : Nat) : Celda := { valor := some v, posible := [v], original := false }

/-- An empty cell with candidate list `ps`. -/
def ec (ps : List Nat) : Celda := { valor := none, posible := ps, original := false }

/-- A 4-by-4 board that is valid (`valido`) and unsolved, on which the
propagation pre-pass of `resolver` commits a duplicate 4 in row 1 while
filling every cell: the naked-single rule fires 4 at cell (1,1) (it is the
only cell of column 1 with 4 as a candidate) and the elimination cascade
then force-assigns (1,2) to 3 and (1,3) to 4. -/
def tableroColapso : Tablero :=
  [cc 3, cc 1, cc 2, cc 4,
   cc 2, ec [2, 4], ec [3, 4], ec [3, 4],
   cc 4, cc 3, cc 1, cc 2,
   cc 1, cc 2, cc 4, cc 3]

/-- A 4-by-4 puzzle whose load already commits a duplicate: loading the
given 4 at (1,1) triggers an elimination cascade that force-assigns (1,2)
to 3 and then (1,3) to 4, duplicating the 4 of (1,1) in row 1, yet
`cargar` reports success. -/
def gridDuplica : List (List Nat) :=
  [[0, 0, 2, 0], [1, 4, 0, 0], [0, 0, 0, 0], [0, 0, 0, 0]]

/-- A 4-by-4 grid with a single given, used to exhibit the given-flag. -/
def gridUnaDada : List (List Nat) :=
  [[1, 0, 0, 0], [0, 0, 0, 0], [0, 0, 0, 0], [0, 0, 0, 0]]

/-- A 4-by-4 puzzle (one given per row, first column) from the source's own
test comments; propagation alone does not solve it, so `resolver` reaches
the search step. -/
def gridBusqueda : List (List Nat) :=
  [[1, 0, 0, 0], [2, 0, 0, 0], [3, 0, 0, 0], [4, 0, 0, 0]]

/-! ### Basic facts about cell access -/

theorem getCell_setCell_self (b : Tablero) (i : Nat) (c : Celda) (h : i < List.length b) :
    getCell (setCell b i c) i = c := by
  simp [getCell, setCell, List.getD_eq_getElem?_getD, List.getElem?_set_self h]

theorem getCell_setCell_ne (b : Tablero) (i j : Nat) (c : Celda) (h : i ≠ j) :
    getCell (setCell b i c) j = getCell b j := by
  simp [getCell, setCell, List.getD_eq_getElem?_getD, List.getElem?_set_ne h]

theorem length_setCell (b : Tablero) (i : Nat) (c : Celda) :
    List.length (setCell b i c) = List.length b :=
  List.length_set b i c

theorem medida_cons (c : Celda) (b : Tablero) :
    medida (c :: b) = c.posible.length + medida b := by
  simp [medida]

theorem medida_setCell (b : Tablero) (i : Nat) (c : Celda) (h : i < List.length b) :
    medida (setCell b i c) + (getCell b i).posible.length = medida b + c.posible.length := by
  induction b generalizing i with
  | nil => simp at h
  | cons hd tl ih =>
    cases i with
    | zero =>
      simp only [setCell, List.set_cons_zero, getCell, List.getD_cons_zero, medida_cons]
      omega
    | succ n =>
      simp only [setCell, List.set_cons_succ, getCell, List.getD_cons_succ, medida_cons]
      have := ih n (by simpa using h)
      simp only [setCell, getCell] at this
      omega

theorem medida_setCell_le (b : Tablero) (i : Nat) (c : Celda)
    (h : c.posible.length ≤ (getCell b i).posible.length) :
    medida (setCell b i c) ≤ medida b := by
  by_cases hi : i < List.length b
  · have := medida_setCell b i c hi
    omega
  · rw [setCell, List.set_eq_of_length_le (by omega)]

theorem getCell_oob (b : Tablero) (i : Nat) (h : List.length b ≤ i) :
    getCell b i = defCelda := by
  simp [getCell, List.getD_eq_getElem?_getD, List.getElem?_eq_none h]

/-- If a cell's candidate list is nonempty, its index is in range. -/
theorem lt_length_of_posible_ne (b : Tablero) (i : Nat)
    (h : (getCell b i).posible ≠ []) : i < List.length b := by
  by_contra hi
  rw [getCell_oob b i (by omega)] at h
  exact h rfl

/-! ### Unfolding equations for the elimination cascade -/

theorem cascada_gq (N fuel : Nat) : (cascada N fuel).gq = gqGo (cascada N fuel).cq := by
  cases fuel <;> rfl

theorem grupoQuitarF_gqGo (N fuel : Nat) (l : List Nat) (idx v : Nat) (lg : Bool) (b : Tablero) :
    grupoQuitarF N fuel l idx v lg b = gqGo ((cascada N fuel).cq) l idx v lg b := by
  show (cascada N fuel).gq l idx v lg b = _
  rw [cascada_gq]

theorem setvalorF_zero (N idx v : Nat) (o lg : Bool) (b : Tablero) :
    setvalorF N 0 idx v o lg b = (b, false) := rfl

theorem setvalorF_neg (N f idx v : Nat) (o lg : Bool) (b : Tablero)
    (h : v ∉ (getCell b idx).posible) :
    setvalorF N (f + 1) idx v o lg b = (b, false) := by
  show (cascada N (f + 1)).sv idx v o lg b = (b, false)
  simp only [cascada]
  rw [if_neg h]

theorem setvalorF_pos (N f idx v : Nat) (o lg : Bool) (b : Tablero)
    (h : v ∈ (getCell b idx).posible) :
    setvalorF N (f + 1) idx v o lg b =
      ((grupoQuitarF N f (cuadroIdx N (boxOf N idx)) idx v lg
        (grupoQuitarF N f (colIdx N (idx % N)) idx v lg
          (grupoQuitarF N f (filaIdx N (idx / N)) idx v lg
            (setCell b idx { valor := some v, posible := [v], original := o })).1).1).1, true) := by
  show (cascada N (f + 1)).sv idx v o lg b = _
  simp only [cascada]
  rw [if_pos h]
  rfl

theorem celdaQuitarF_zero (N i v : Nat) (lg : Bool) (b : Tablero) :
    celdaQuitarF N 0 i v lg b = (b, true) := rfl

theorem celdaQuitarF_neg (N f i v : Nat) (lg : Bool) (b : Tablero)
    (h : ¬(vacia (getCell b i) ∧ v ∈ (getCell b i).posible)) :
    celdaQuitarF N (f + 1) i v lg b = (b, !(getCell b i).posible.isEmpty) := by
  show (cascada N (f + 1)).cq i v lg b = _
  simp only [cascada]
  rw [if_neg h]

theorem celdaQuitarF_one (N f i v : Nat) (lg : Bool) (b : Tablero) (w : Nat)
    (h : vacia (getCell b i) ∧ v ∈ (getCell b i).posible)
    (hw : (getCell b i).posible.erase v = [w]) :
    celdaQuitarF N (f + 1) i v lg b =
      setvalorF N f i w lg false
        (setCell b i { getCell b i with posible := (getCell b i).posible.erase v }) := by
  show (cascada N (f + 1)).cq i v lg b = _
  simp only [cascada]
  rw [if_pos h, hw]
  rfl

theorem celdaQuitarF_many (N f i v : Nat) (lg : Bool) (b : Tablero)
    (h : vacia (getCell b i) ∧ v ∈ (getCell b i).posible)
    (hw : ∀ w, (getCell b i).posible.erase v ≠ [w]) :
    celdaQuitarF N (f + 1) i v lg b =
      (setCell b i { getCell b i with posible := (getCell b i).posible.erase v },
       !((getCell b i).posible.erase v).isEmpty) := by
  show (cascada N (f + 1)).cq i v lg b = _
  simp only [cascada]
  rw [if_pos h]

theorem grupoQuitarF_nil (N fuel idx v : Nat) (lg : Bool) (b : Tablero) :
    grupoQuitarF N fuel [] idx v lg b = (b, true) := by
  rw [grupoQuitarF_gqGo]
  rfl

theorem grupoQuitarF_cons_skip (N fuel idx v i : Nat) (rest : List Nat) (lg : Bool) (b : Tablero)
    (h : ¬(i ≠ idx ∧ vacia (getCell b i))) :
    grupoQuitarF N fuel (i :: rest) idx v lg b = grupoQuitarF N fuel rest idx v lg b := by
  rw [grupoQuitarF_gqGo, grupoQuitarF_gqGo]
  simp only [gqGo]
  rw [if_neg h]

theorem grupoQuitarF_cons_act (N fuel idx v i : Nat) (rest : List Nat) (lg : Bool) (b : Tablero)
    (h : i ≠ idx ∧ vacia (getCell b i)) :
    grupoQuitarF N fuel (i :: rest) idx v lg b =
      (if (celdaQuitarF N fuel i v lg b).2
       then grupoQuitarF N fuel rest idx v lg (celdaQuitarF N fuel i v lg b).1
       else ((celdaQuitarF N fuel i v lg b).1, false)) := by
  rw [grupoQuitarF_gqGo, grupoQuitarF_gqGo]
  simp only [gqGo]
  rw [if_pos h]
  rfl

/-! ### Preservation facts for the cascade

For each of the three mutually recursive functions, the result board has the
same length, a total candidate count that did not grow, every cell that was
assigned and is not the direct target keeps its exact contents, and no cell
loses its assignment. -/

theorem trioPres (N : Nat) : ∀ n : Nat,
    (∀ idx v o lg b,
       List.length (setvalorF N n idx v o lg b).1 = List.length b ∧
       medida (setvalorF N n idx v o lg b).1 ≤ medida b ∧
       (∀ j, j ≠ idx → (getCell b j).valor ≠ none →
          getCell (setvalorF N n idx v o lg b).1 j = getCell b j) ∧
       (∀ j, (getCell (setvalorF N n idx v o lg b).1 j).valor = none →
          (getCell b j).valor = none))
    ∧ (∀ l idx v lg b,
       List.length (grupoQuitarF N n l idx v lg b).1 = List.length b ∧
       medida (grupoQuitarF N n l idx v lg b).1 ≤ medida b ∧
       (∀ j, (getCell b j).valor ≠ none →
          getCell (grupoQuitarF N n l idx v lg b).1 j = getCell b j) ∧
       (∀ j, (getCell (grupoQuitarF N n l idx v lg b).1 j).valor = none →
          (getCell b j).valor = none))
    ∧ (∀ i v lg b,
       List.length (celdaQuitarF N n i v lg b).1 = List.length b ∧
       medida (celdaQuitarF N n i v lg b).1 ≤ medida b ∧
       (∀ j, (getCell b j).valor ≠ none →
          getCell (celdaQuitarF N n i v lg b).1 j = getCell b j) ∧
       (∀ j, (getCell (celdaQuitarF N n i v lg b).1 j).valor = none →
          (getCell b j).valor = none)) := by
  intro n
  induction n using Nat.strong_induction_on with
  | _ n ih =>
    have hc : ∀ i v lg b,
        List.length (celdaQuitarF N n i v lg b).1 = List.length b ∧
        medida (celdaQuitarF N n i v lg b).1 ≤ medida b ∧
        (∀ j, (getCell b j).valor ≠ none →
           getCell (celdaQuitarF N n i v lg b).1 j = getCell b j) ∧
        (∀ j, (getCell (celdaQuitarF N n i v lg b).1 j).valor = none →
           (getCell b j).valor = none) := by
      intro i v lg b
      match n with
      | 0 => simp [celdaQuitarF_zero]
      | f + 1 =>
        by_cases hact : vacia (getCell b i) ∧ v ∈ (getCell b i).posible
        · have hvacia : (getCell b i).valor = none := by
            have := hact.1
            simpa [vacia, Option.isNone_iff_eq_none] using this
          have hjne : ∀ j, (getCell b j).valor ≠ none → i ≠ j := by
            intro j hj hij
            exact hj (hij ▸ hvacia)
          have hlen1 : 1 ≤ (getCell b i).posible.length := by
            cases hh : (getCell b i).posible with
            | nil => rw [hh] at hact; cases hact.2
            | cons a t => simp
          have hkeep1 : ∀ (ps : List Nat) j, (getCell b j).valor ≠ none →
              getCell (setCell b i { getCell b i with posible := ps }) j = getCell b j := by
            intro ps j hj
            exact getCell_setCell_ne b i j _ (hjne j hj)
          have hmono1 : ∀ (ps : List Nat) j,
              (getCell (setCell b i { getCell b i with posible := ps }) j).valor = none →
              (getCell b j).valor = none := by
            intro ps j hj
            by_cases hij : i = j
            · exact hij ▸ hvacia
            · rwa [getCell_setCell_ne b i j _ hij] at hj
          rcases hps : (getCell b i).posible.erase v with _ | ⟨w, _ | ⟨w2, tl⟩⟩
          · rw [celdaQuitarF_many N f i v lg b hact (by rw [hps]; simp), hps]
            exact ⟨length_setCell .., medida_setCell_le _ _ _ (by simp),
              hkeep1 [], hmono1 []⟩
          · rw [celdaQuitarF_one N f i v lg b w hact hps, hps]
            obtain ⟨hl, hm, hk, hmo⟩ :=
              (ih f (by omega)).1 i w lg false
                (setCell b i { getCell b i with posible := [w] })
            refine ⟨?_, ?_, ?_, ?_⟩
            · rw [hl, length_setCell]
            · exact le_trans hm (medida_setCell_le _ _ _ (by simpa using hlen1))
            · intro j hj
              have hijne : i ≠ j := hjne j hj
              have hb1j := hkeep1 [w] j hj
              rw [hk j (fun h => hijne h.symm) (by rw [hb1j]; exact hj), hb1j]
            · intro j hj
              exact hmono1 [w] j (hmo j hj)
          · rw [celdaQuitarF_many N f i v lg b hact (by rw [hps]; simp), hps]
            exact ⟨length_setCell .., medida_setCell_le _ _ _ (by
                rw [← hps]
                exact (List.erase_sublist v _).length_le),
              hkeep1 (w :: w2 :: tl), hmono1 (w :: w2 :: tl)⟩
        · rw [celdaQuitarF_neg N f i v lg b hact]
          simp
    have hg : ∀ l idx v lg b,
        List.length (grupoQuitarF N n l idx v lg b).1 = List.length b ∧
        medida (grupoQuitarF N n l idx v lg b).1 ≤ medida b ∧
        (∀ j, (getCell b j).valor ≠ none →
           getCell (grupoQuitarF N n l idx v lg b).1 j = getCell b j) ∧
        (∀ j, (getCell (grupoQuitarF N n l idx v lg b).1 j).valor = none →
           (getCell b j).valor = none) := by
      intro l
      induction l with
      | nil => intro idx v lg b; simp [grupoQuitarF_nil]
      | cons i rest ihl =>
        intro idx v lg b
        by_cases hcnd : i ≠ idx ∧ vacia (getCell b i)
        · rw [grupoQuitarF_cons_act N n idx v i rest lg b hcnd]
          obtain ⟨hl1, hm1, hk1, hmo1⟩ := hc i v lg b
          by_cases hr2 : (celdaQuitarF N n i v lg b).2
          · simp only [hr2, if_true]
            obtain ⟨hl2, hm2, hk2, hmo2⟩ := ihl idx v lg (celdaQuitarF N n i v lg b).1
            refine ⟨by rw [hl2, hl1], le_trans hm2 hm1, ?_, ?_⟩
            · intro j hj
              rw [hk2 j (by rw [hk1 j hj]; exact hj), hk1 j hj]
            · intro j hj
              exact hmo1 j (hmo2 j hj)
          · simp only [hr2, if_false]
            exact ⟨hl1, hm1, hk1, hmo1⟩
        · rw [grupoQuitarF_cons_skip N n idx v i rest lg b hcnd]
          exact ihl idx v lg b
    have hs : ∀ idx v o lg b,
        List.length (setvalorF N n idx v o lg b).1 = List.length b ∧
        medida (setvalorF N n idx v o lg b).1 ≤ medida b ∧
        (∀ j, j ≠ idx → (getCell b j).valor ≠ none →
           getCell (setvalorF N n idx v o lg b).1 j = getCell b j) ∧
        (∀ j, (getCell (setvalorF N n idx v o lg b).1 j).valor = none →
           (getCell b j).valor = none) := by
      intro idx v o lg b
      match n with
      | 0 => simp [setvalorF_zero]
      | f + 1 =>
        by_cases hv : v ∈ (getCell b idx).posible
        · rw [setvalorF_pos N f idx v o lg b hv]
          have hltidx : idx < List.length b :=
            lt_length_of_posible_ne b idx (by
              intro hnil; rw [hnil] at hv; exact (List.not_mem_nil v) hv)
          set b1 := setCell b idx { valor := some v, posible := [v], original := o } with hb1
          have hb1len : List.length b1 = List.length b := length_setCell ..
          have hb1med : medida b1 ≤ medida b := by
            apply medida_setCell_le
            simp only []
            have : 1 ≤ (getCell b idx).posible.length := by
              cases hh : (getCell b idx).posible with
              | nil => rw [hh] at hv; cases hv
              | cons a t => simp
            simpa using this
          obtain ⟨gl1, gm1, gk1, gmo1⟩ := (ih f (by omega)).2.1 (filaIdx N (idx / N)) idx v lg b1
          set b2 := (grupoQuitarF N f (filaIdx N (idx / N)) idx v lg b1).1 with hb2
          obtain ⟨gl2, gm2, gk2, gmo2⟩ := (ih f (by omega)).2.1 (colIdx N (idx % N)) idx v lg b2
          set b3 := (grupoQuitarF N f (colIdx N (idx % N)) idx v lg b2).1 with hb3
          obtain ⟨gl3, gm3, gk3, gmo3⟩ := (ih f (by omega)).2.1 (cuadroIdx N (boxOf N idx)) idx v lg b3
          refine ⟨by rw [gl3, gl2, gl1, hb1len], ?_, ?_, ?_⟩
          · exact le_trans gm3 (le_trans gm2 (le_trans gm1 hb1med))
          · intro j hjne hj
            have h1 : getCell b1 j = getCell b j := getCell_setCell_ne b idx j _ (fun h => hjne h.symm)
            have hj1 : (getCell b1 j).valor ≠ none := by rw [h1]; exact hj
            have h2 : getCell b2 j = getCell b1 j := gk1 j hj1
            have hj2 : (getCell b2 j).valor ≠ none := by rw [h2]; exact hj1
            have h3 : getCell b3 j = getCell b2 j := gk2 j hj2
            have hj3 : (getCell b3 j).valor ≠ none := by rw [h3]; exact hj2
            rw [gk3 j hj3, h3, h2, h1]
          · intro j hj
            have hj3 := gmo3 j hj
            have hj2 := gmo2 j hj3
            have hj1 := gmo1 j hj2
            by_cases hij : idx = j
            · subst hij
              rw [getCell_setCell_self b idx _ hltidx] at hj1
              cases hj1
            · rwa [getCell_setCell_ne b idx j _ hij] at hj1
        · rw [setvalorF_neg N f idx v o lg b hv]
          simp
    exact ⟨hs, hg, hc⟩

theorem setvalorF_length (N n idx v : Nat) (o lg : Bool) (b : Tablero) :
    List.length (setvalorF N n idx v o lg b).1 = List.length b :=
  ((trioPres N n).1 idx v o lg b).1

theorem setvalorF_medida (N n idx v : Nat) (o lg : Bool) (b : Tablero) :
    medida (setvalorF N n idx v o lg b).1 ≤ medida b :=
  ((trioPres N n).1 idx v o lg b).2.1

theorem setvalorF_keep (N n idx v : Nat) (o lg : Bool) (b : Tablero) (j : Nat)
    (hne : j ≠ idx) (hj : (getCell b j).valor ≠ none) :
    getCell (setvalorF N n idx v o lg b).1 j = getCell b j :=
  ((trioPres N n).1 idx v o lg b).2.2.1 j hne hj

theorem setvalorF_mono (N n idx v : Nat) (o lg : Bool) (b : Tablero) (j : Nat)
    (hj : (getCell (setvalorF N n idx v o lg b).1 j).valor = none) :
    (getCell b j).valor = none :=
  ((trioPres N n).1 idx v o lg b).2.2.2 j hj

theorem grupoQuitarF_length (N n : Nat) (l : List Nat) (idx v : Nat) (lg : Bool) (b : Tablero) :
    List.length (grupoQuitarF N n l idx v lg b).1 = List.length b :=
  ((trioPres N n).2.1 l idx v lg b).1

theorem grupoQuitarF_medida (N n : Nat) (l : List Nat) (idx v : Nat) (lg : Bool) (b : Tablero) :
    medida (grupoQuitarF N n l idx v lg b).1 ≤ medida b :=
  ((trioPres N n).2.1 l idx v lg b).2.1

theorem grupoQuitarF_keep (N n : Nat) (l : List Nat) (idx v : Nat) (lg : Bool) (b : Tablero)
    (j : Nat) (hj : (getCell b j).valor ≠ none) :
    getCell (grupoQuitarF N n l idx v lg b).1 j = getCell b j :=
  ((trioPres N n).2.1 l idx v lg b).2.2.1 j hj

theorem grupoQuitarF_mono (N n : Nat) (l : List Nat) (idx v : Nat) (lg : Bool) (b : Tablero)
    (j : Nat) (hj : (getCell (grupoQuitarF N n l idx v lg b).1 j).valor = none) :
    (getCell b j).valor = none :=
  ((trioPres N n).2.1 l idx v lg b).2.2.2 j hj

theorem celdaQuitarF_length (N n i v : Nat) (lg : Bool) (b : Tablero) :
    List.length (celdaQuitarF N n i v lg b).1 = List.length b :=
  ((trioPres N n).2.2 i v lg b).1

theorem celdaQuitarF_medida (N n i v : Nat) (lg : Bool) (b : Tablero) :
    medida (celdaQuitarF N n i v lg b).1 ≤ medida b :=
  ((trioPres N n).2.2 i v lg b).2.1

theorem celdaQuitarF_keep (N n i v : Nat) (lg : Bool) (b : Tablero) (j : Nat)
    (hj : (getCell b j).valor ≠ none) :
    getCell (celdaQuitarF N n i v lg b).1 j = getCell b j :=
  ((trioPres N n).2.2 i v lg b).2.2.1 j hj

theorem celdaQuitarF_mono (N n i v : Nat) (lg : Bool) (b : Tablero) (j : Nat)
    (hj : (getCell (celdaQuitarF N n i v lg b).1 j).valor = none) :
    (getCell b j).valor = none :=
  ((trioPres N n).2.2 i v lg b).2.2.2 j hj

/-! ### The chosen fuel bound is sufficient

The elimination cascade erases one candidate before each nested
auto-assignment, so a fuel of twice the total candidate count plus a small
constant exceeds the recursion depth of the unbounded Python recursion: any
two fuels above the bound give the same result. -/

theorem trioStable (N : Nat) : ∀ n : Nat,
    (∀ f2 idx v o lg b, 2 * medida b + 2 ≤ n → 2 * medida b + 2 ≤ f2 →
        setvalorF N n idx v o lg b = setvalorF N f2 idx v o lg b)
    ∧ (∀ f2 l idx v lg b, 2 * medida b + 1 ≤ n → 2 * medida b + 1 ≤ f2 →
        grupoQuitarF N n l idx v lg b = grupoQuitarF N f2 l idx v lg b)
    ∧ (∀ f2 i v lg b, 2 * medida b + 1 ≤ n → 2 * medida b + 1 ≤ f2 →
        celdaQuitarF N n i v lg b = celdaQuitarF N f2 i v lg b) := by
  intro n
  induction n using Nat.strong_induction_on with
  | _ n ih =>
    have hc : ∀ f2 i v lg b, 2 * medida b + 1 ≤ n → 2 * medida b + 1 ≤ f2 →
        celdaQuitarF N n i v lg b = celdaQuitarF N f2 i v lg b := by
      intro f2 i v lg b hn hf2
      match n, f2, hn, hf2 with
      | f + 1, d + 1, hn, hf2 =>
        by_cases hact : vacia (getCell b i) ∧ v ∈ (getCell b i).posible
        · have hlt : i < List.length b :=
            lt_length_of_posible_ne b i (by
              intro hnil; rw [hnil] at hact; exact (List.not_mem_nil v) hact.2)
          have hmem := hact.2
          have herlen : ((getCell b i).posible.erase v).length + 1 =
              (getCell b i).posible.length := by
            rw [List.length_erase_of_mem hmem]
            have : 1 ≤ (getCell b i).posible.length := by
              cases hh : (getCell b i).posible with
              | nil => rw [hh] at hmem; cases hmem
              | cons a t => simp
            omega
          rcases hps : (getCell b i).posible.erase v with _ | ⟨w, _ | ⟨w2, tl⟩⟩
          · rw [celdaQuitarF_many N f i v lg b hact (by rw [hps]; simp),
              celdaQuitarF_many N d i v lg b hact (by rw [hps]; simp)]
          · rw [celdaQuitarF_one N f i v lg b w hact hps,
              celdaQuitarF_one N d i v lg b w hact hps]
            dsimp only
            have hmed := medida_setCell b i ({ getCell b i with posible := (getCell b i).posible.erase v }) hlt
            dsimp only at hmed
            exact (ih f (by omega)).1 d i w lg false _ (by omega) (by omega)
          · rw [celdaQuitarF_many N f i v lg b hact (by rw [hps]; simp),
              celdaQuitarF_many N d i v lg b hact (by rw [hps]; simp)]
        · rw [celdaQuitarF_neg N f i v lg b hact, celdaQuitarF_neg N d i v lg b hact]
    have hg : ∀ f2 l idx v lg b, 2 * medida b + 1 ≤ n → 2 * medida b + 1 ≤ f2 →
        grupoQuitarF N n l idx v lg b = grupoQuitarF N f2 l idx v lg b := by
      intro f2 l
      induction l with
      | nil =>
        intro idx v lg b hn hf2
        rw [grupoQuitarF_nil, grupoQuitarF_nil]
      | cons i rest ihl =>
        intro idx v lg b hn hf2
        by_cases hcnd : i ≠ idx ∧ vacia (getCell b i)
        · rw [grupoQuitarF_cons_act N n idx v i rest lg b hcnd,
            grupoQuitarF_cons_act N f2 idx v i rest lg b hcnd]
          rw [← hc f2 i v lg b hn hf2]
          have hmed := celdaQuitarF_medida N n i v lg b
          by_cases hr2 : (celdaQuitarF N n i v lg b).2 = true
          · rw [if_pos hr2, if_pos hr2]
            exact ihl idx v lg _ (by omega) (by omega)
          · rw [if_neg hr2, if_neg hr2]
        · rw [grupoQuitarF_cons_skip N n idx v i rest lg b hcnd,
            grupoQuitarF_cons_skip N f2 idx v i rest lg b hcnd]
          exact ihl idx v lg b hn hf2
    have hs : ∀ f2 idx v o lg b, 2 * medida b + 2 ≤ n → 2 * medida b + 2 ≤ f2 →
        setvalorF N n idx v o lg b = setvalorF N f2 idx v o lg b := by
      intro f2 idx v o lg b hn hf2
      match n, f2, hn, hf2 with
      | f + 1, d + 1, hn, hf2 =>
        by_cases hv : v ∈ (getCell b idx).posible
        · rw [setvalorF_pos N f idx v o lg b hv, setvalorF_pos N d idx v o lg b hv]
          have hlt : idx < List.length b :=
            lt_length_of_posible_ne b idx (by
              intro hnil; rw [hnil] at hv; exact (List.not_mem_nil v) hv)
          have hmedb1 : medida (setCell b idx
              { valor := some v, posible := [v], original := o }) ≤ medida b := by
            apply medida_setCell_le
            simp only []
            cases hh : (getCell b idx).posible with
            | nil => rw [hh] at hv; cases hv
            | cons a t => simp
          have h1 := (ih f (by omega)).2.1 d (filaIdx N (idx / N)) idx v lg
            (setCell b idx { valor := some v, posible := [v], original := o })
            (by omega) (by omega)
          rw [← h1]
          have hmedb2 := grupoQuitarF_medida N f (filaIdx N (idx / N)) idx v lg
            (setCell b idx { valor := some v, posible := [v], original := o })
          have h2 := (ih f (by omega)).2.1 d (colIdx N (idx % N)) idx v lg
            (grupoQuitarF N f (filaIdx N (idx / N)) idx v lg
              (setCell b idx { valor := some v, posible := [v], original := o })).1
            (by omega) (by omega)
          rw [← h2]
          have hmedb3 := grupoQuitarF_medida N f (colIdx N (idx % N)) idx v lg
            (grupoQuitarF N f (filaIdx N (idx / N)) idx v lg
              (setCell b idx { valor := some v, posible := [v], original := o })).1
          have h3 := (ih f (by omega)).2.1 d (cuadroIdx N (boxOf N idx)) idx v lg
            (grupoQuitarF N f (colIdx N (idx % N)) idx v lg
              (grupoQuitarF N f (filaIdx N (idx / N)) idx v lg
                (setCell b idx { valor := some v, posible := [v], original := o })).1).1
            (by omega) (by omega)
          rw [← h3]
        · rw [setvalorF_neg N f idx v o lg b hv, setvalorF_neg N d idx v o lg b hv]
    exact ⟨hs, hg, hc⟩

/-- Any sufficient fuel computes `Celda.setvalor` itself. -/
theorem setvalorF_eq_setvalor (N fuel idx v : Nat) (o lg : Bool) (b : Tablero)
    (h : 2 * medida b + 2 ≤ fuel) :
    setvalorF N fuel idx v o lg b = setvalor N idx v o lg b :=
  (trioStable N fuel).1 (2 * medida b + 2) idx v o lg b h (by omega)

/-- Any sufficient fuel computes `Celda.quitar` itself. -/
theorem celdaQuitarF_eq_celdaQuitar (N fuel i v : Nat) (lg : Bool) (b : Tablero)
    (h : 2 * medida b + 1 ≤ fuel) :
    celdaQuitarF N fuel i v lg b = celdaQuitar N i v lg b :=
  (trioStable N fuel).2.2 (2 * medida b + 2) i v lg b h (by omega)

/-- Any sufficient fuel computes `Grupo.quitar` itself. -/
theorem grupoQuitarF_eq_grupoQuitar (N fuel : Nat) (l : List Nat) (idx v : Nat) (lg : Bool)
    (b : Tablero) (h : 2 * medida b + 1 ≤ fuel) :
    grupoQuitarF N fuel l idx v lg b = grupoQuitar N l idx v lg b :=
  (trioStable N fuel).2.1 (2 * medida b + 1) l idx v lg b h (by omega)

/-! ### Fuel-free step equations for the cascade -/

theorem setvalor_neg (N idx v : Nat) (o lg : Bool) (b : Tablero)
    (h : v ∉ (getCell b idx).posible) :
    setvalor N idx v o lg b = (b, false) := by
  unfold setvalor
  rw [show 2 * medida b + 2 = (2 * medida b + 1) + 1 from rfl, setvalorF_neg N _ idx v o lg b h]

theorem grupoQuitar_medida (N : Nat) (l : List Nat) (idx v : Nat) (lg : Bool) (b : Tablero) :
    medida (grupoQuitar N l idx v lg b).1 ≤ medida b :=
  grupoQuitarF_medida N _ l idx v lg b

theorem grupoQuitar_length (N : Nat) (l : List Nat) (idx v : Nat) (lg : Bool) (b : Tablero) :
    List.length (grupoQuitar N l idx v lg b).1 = List.length b :=
  grupoQuitarF_length N _ l idx v lg b

theorem grupoQuitar_keep (N : Nat) (l : List Nat) (idx v : Nat) (lg : Bool) (b : Tablero)
    (j : Nat) (hj : (getCell b j).valor ≠ none) :
    getCell (grupoQuitar N l idx v lg b).1 j = getCell b j :=
  grupoQuitarF_keep N _ l idx v lg b j hj

theorem grupoQuitar_mono (N : Nat) (l : List Nat) (idx v : Nat) (lg : Bool) (b : Tablero)
    (j : Nat) (hj : (getCell (grupoQuitar N l idx v lg b).1 j).valor = none) :
    (getCell b j).valor = none :=
  grupoQuitarF_mono N _ l idx v lg b j hj

theorem setvalor_pos (N idx v : Nat) (o lg : Bool) (b : Tablero)
    (h : v ∈ (getCell b idx).posible) :
    setvalor N idx v o lg b =
      ((grupoQuitar N (cuadroIdx N (boxOf N idx)) idx v lg
        (grupoQuitar N (colIdx N (idx % N)) idx v lg
          (grupoQuitar N (filaIdx N (idx / N)) idx v lg
            (setCell b idx { valor := some v, posible := [v], original := o })).1).1).1, true) := by
  unfold setvalor
  rw [show 2 * medida b + 2 = (2 * medida b + 1) + 1 from rfl, setvalorF_pos N _ idx v o lg b h]
  have hm1 : medida (setCell b idx { valor := some v, posible := [v], original := o }) ≤ medida b := by
    apply medida_setCell_le
    simp only []
    cases hh : (getCell b idx).posible with
    | nil => rw [hh] at h; cases h
    | cons a t => simp
  have e1 : grupoQuitarF N (2 * medida b + 1) (filaIdx N (idx / N)) idx v lg
      (setCell b idx { valor := some v, posible := [v], original := o }) =
      grupoQuitar N (filaIdx N (idx / N)) idx v lg
      (setCell b idx { valor := some v, posible := [v], original := o }) :=
    grupoQuitarF_eq_grupoQuitar N _ _ idx v lg _ (by omega)
  rw [e1]
  have hm2 := grupoQuitar_medida N (filaIdx N (idx / N)) idx v lg
    (setCell b idx { valor := some v, posible := [v], original := o })
  have e2 : grupoQuitarF N (2 * medida b + 1) (colIdx N (idx % N)) idx v lg
      (grupoQuitar N (filaIdx N (idx / N)) idx v lg
        (setCell b idx { valor := some v, posible := [v], original := o })).1 =
      grupoQuitar N (colIdx N (idx % N)) idx v lg
      (grupoQuitar N (filaIdx N (idx / N)) idx v lg
        (setCell b idx { valor := some v, posible := [v], original := o })).1 :=
    grupoQuitarF_eq_grupoQuitar N _ _ idx v lg _ (by omega)
  rw [e2]
  have hm3 := grupoQuitar_medida N (colIdx N (idx % N)) idx v lg
    (grupoQuitar N (filaIdx N (idx / N)) idx v lg
      (setCell b idx { valor := some v, posible := [v], original := o })).1
  have e3 : grupoQuitarF N (2 * medida b + 1) (cuadroIdx N (boxOf N idx)) idx v lg
      (grupoQuitar N (colIdx N (idx % N)) idx v lg
        (grupoQuitar N (filaIdx N (idx / N)) idx v lg
          (setCell b idx { valor := some v, posible := [v], original := o })).1).1 =
      grupoQuitar N (cuadroIdx N (boxOf N idx)) idx v lg
      (grupoQuitar N (colIdx N (idx % N)) idx v lg
        (grupoQuitar N (filaIdx N (idx / N)) idx v lg
          (setCell b idx { valor := some v, posible := [v], original := o })).1).1 :=
    grupoQuitarF_eq_grupoQuitar N _ _ idx v lg _ (by omega)
  rw [e3]

theorem celdaQuitar_neg (N i v : Nat) (lg : Bool) (b : Tablero)
    (h : ¬(vacia (getCell b i) ∧ v ∈ (getCell b i).posible)) :
    celdaQuitar N i v lg b = (b, !(getCell b i).posible.isEmpty) := by
  unfold celdaQuitar
  rw [show 2 * medida b + 2 = (2 * medida b + 1) + 1 from rfl, celdaQuitarF_neg N _ i v lg b h]

theorem celdaQuitar_one (N i v : Nat) (lg : Bool) (b : Tablero) (w : Nat)
    (h : vacia (getCell b i) ∧ v ∈ (getCell b i).posible)
    (hw : (getCell b i).posible.erase v = [w]) :
    celdaQuitar N i v lg b =
      setvalor N i w lg false
        (setCell b i { getCell b i with posible := (getCell b i).posible.erase v }) := by
  unfold celdaQuitar
  rw [show 2 * medida b + 2 = (2 * medida b + 1) + 1 from rfl, celdaQuitarF_one N _ i v lg b w h hw]
  have hlt : i < List.length b :=
    lt_length_of_posible_ne b i (by
      intro hnil; rw [hnil] at h; exact (List.not_mem_nil v) h.2)
  have hmed := medida_setCell b i ({ getCell b i with posible := (getCell b i).posible.erase v }) hlt
  dsimp only at hmed
  have herlen : ((getCell b i).posible.erase v).length + 1 = (getCell b i).posible.length := by
    rw [List.length_erase_of_mem h.2]
    have : 1 ≤ (getCell b i).posible.length := by
      cases hh : (getCell b i).posible with
      | nil => rw [hh] at h; cases h.2
      | cons a t => simp
    omega
  dsimp only
  exact setvalorF_eq_setvalor N _ i w lg false _ (by omega)

theorem celdaQuitar_many (N i v : Nat) (lg : Bool) (b : Tablero)
    (h : vacia (getCell b i) ∧ v ∈ (getCell b i).posible)
    (hw : ∀ w, (getCell b i).posible.erase v ≠ [w]) :
    celdaQuitar N i v lg b =
      (setCell b i { getCell b i with posible := (getCell b i).posible.erase v },
       !((getCell b i).posible.erase v).isEmpty) := by
  unfold celdaQuitar
  rw [show 2 * medida b + 2 = (2 * medida b + 1) + 1 from rfl, celdaQuitarF_many N _ i v lg b h hw]

theorem grupoQuitar_nil (N idx v : Nat) (lg : Bool) (b : Tablero) :
    grupoQuitar N [] idx v lg b = (b, true) := by
  unfold grupoQuitar
  rw [grupoQuitarF_nil]

theorem grupoQuitar_cons_skip (N idx v i : Nat) (rest : List Nat) (lg : Bool) (b : Tablero)
    (h : ¬(i ≠ idx ∧ vacia (getCell b i))) :
    grupoQuitar N (i :: rest) idx v lg b = grupoQuitar N rest idx v lg b := by
  unfold grupoQuitar
  rw [grupoQuitarF_cons_skip N _ idx v i rest lg b h]

theorem grupoQuitar_cons_act (N idx v i : Nat) (rest : List Nat) (lg : Bool) (b : Tablero)
    (h : i ≠ idx ∧ vacia (getCell b i)) :
    grupoQuitar N (i :: rest) idx v lg b =
      (if (celdaQuitar N i v lg b).2
       then grupoQuitar N rest idx v lg (celdaQuitar N i v lg b).1
       else ((celdaQuitar N i v lg b).1, false)) := by
  unfold grupoQuitar
  rw [grupoQuitarF_cons_act N _ idx v i rest lg b h]
  rw [celdaQuitarF_eq_celdaQuitar N _ i v lg b (by omega)]
  have hmed : medida (celdaQuitar N i v lg b).1 ≤ medida b := by
    unfold celdaQuitar
    exact celdaQuitarF_medida N _ i v lg b
  by_cases hr2 : (celdaQuitar N i v lg b).2 = true
  · rw [if_pos hr2, if_pos hr2]
    exact (trioStable N _).2.1 _ rest idx v lg _ (by omega) (by omega)
  · rw [if_neg hr2, if_neg hr2]

/-! ### Wrapper-level preservation -/

theorem setvalor_length (N idx v : Nat) (o lg : Bool) (b : Tablero) :
    List.length (setvalor N idx v o lg b).1 = List.length b :=
  setvalorF_length N _ idx v o lg b

theorem setvalor_mono (N idx v : Nat) (o lg : Bool) (b : Tablero) (j : Nat)
    (hj : (getCell (setvalor N idx v o lg b).1 j).valor = none) :
    (getCell b j).valor = none :=
  setvalorF_mono N _ idx v o lg b j hj

theorem setvalor_keep (N idx v : Nat) (o lg : Bool) (b : Tablero) (j : Nat)
    (hne : j ≠ idx) (hj : (getCell b j).valor ≠ none) :
    getCell (setvalor N idx v o lg b).1 j = getCell b j :=
  setvalorF_keep N _ idx v o lg b j hne hj

theorem celdaQuitar_length (N i v : Nat) (lg : Bool) (b : Tablero) :
    List.length (celdaQuitar N i v lg b).1 = List.length b :=
  celdaQuitarF_length N _ i v lg b

theorem celdaQuitar_mono (N i v : Nat) (lg : Bool) (b : Tablero) (j : Nat)
    (hj : (getCell (celdaQuitar N i v lg b).1 j).valor = none) :
    (getCell b j).valor = none :=
  celdaQuitarF_mono N _ i v lg b j hj

/-- `Celda.setvalor` succeeds exactly when the value is a candidate. -/
theorem setvalor_snd_iff (N idx v : Nat) (o lg : Bool) (b : Tablero) :
    (setvalor N idx v o lg b).2 = true ↔ v ∈ (getCell b idx).posible := by
  by_cases h : v ∈ (getCell b idx).posible
  · rw [setvalor_pos N idx v o lg b h]
    simpa using h
  · rw [setvalor_neg N idx v o lg b h]
    simpa using h

/-- On success, the target cell holds the committed value, the singleton
candidate list and the given `original` flag, and the elimination cascade
never touches it again. -/
theorem setvalor_target (N idx v : Nat) (o lg : Bool) (b : Tablero)
    (h : v ∈ (getCell b idx).posible) :
    getCell (setvalor N idx v o lg b).1 idx =
      { valor := some v, posible := [v], original := o } := by
  have hlt : idx < List.length b :=
    lt_length_of_posible_ne b idx (by
      intro hnil; rw [hnil] at h; exact (List.not_mem_nil v) h)
  rw [setvalor_pos N idx v o lg b h]
  have h0 : getCell (setCell b idx { valor := some v, posible := [v], original := o }) idx =
      { valor := some v, posible := [v], original := o } :=
    getCell_setCell_self b idx _ hlt
  have h1 : getCell (grupoQuitar N (filaIdx N (idx / N)) idx v lg
      (setCell b idx { valor := some v, posible := [v], original := o })).1 idx =
      { valor := some v, posible := [v], original := o } := by
    rw [grupoQuitar_keep _ _ idx v lg _ idx (by rw [h0]; simp), h0]
  have h2 : getCell (grupoQuitar N (colIdx N (idx % N)) idx v lg
      (grupoQuitar N (filaIdx N (idx / N)) idx v lg
        (setCell b idx { valor := some v, posible := [v], original := o })).1).1 idx =
      { valor := some v, posible := [v], original := o } := by
    rw [grupoQuitar_keep _ _ idx v lg _ idx (by rw [h1]; simp), h1]
  rw [grupoQuitar_keep _ _ idx v lg _ idx (by rw [h2]; simp), h2]

/-! ### Preservation through the revision and load pipeline -/

theorem asignarCelda_pres (N : Nat) (lg : Bool) (i : Nat) (resto : List Nat) (b : Tablero) :
    List.length (asignarCelda N lg i resto b).1 = List.length b ∧
    (∀ j, (getCell (asignarCelda N lg i resto b).1 j).valor = none →
       (getCell b j).valor = none) := by
  induction resto generalizing b with
  | nil => simp [asignarCelda]
  | cons v rest ih =>
    simp only [asignarCelda]
    obtain ⟨hl, hm⟩ := ih (celdaQuitar N i v lg b).1
    exact ⟨by rw [hl, celdaQuitar_length],
      fun j hj => celdaQuitar_mono N i v lg b j (hm j hj)⟩

theorem asignarAux_pres (N : Nat) (lg : Bool) (comb resto l : List Nat) (b : Tablero) :
    List.length (asignarAux N lg comb resto l b).1 = List.length b ∧
    (∀ j, (getCell (asignarAux N lg comb resto l b).1 j).valor = none →
       (getCell b j).valor = none) := by
  induction l generalizing b with
  | nil => simp [asignarAux]
  | cons i rest ih =>
    simp only [asignarAux]
    split
    · obtain ⟨hl1, hm1⟩ := asignarCelda_pres N lg i resto b
      obtain ⟨hl2, hm2⟩ := ih (asignarCelda N lg i resto b).1
      exact ⟨by rw [hl2, hl1], fun j hj => hm1 j (hm2 j hj)⟩
    · exact ih b

theorem asignar_pres (N : Nat) (lg : Bool) (g comb : List Nat) (b : Tablero) :
    List.length (asignar N lg g comb b).1 = List.length b ∧
    (∀ j, (getCell (asignar N lg g comb b).1 j).valor = none →
       (getCell b j).valor = none) :=
  asignarAux_pres N lg comb _ g b

theorem nsInner_pres (N : Nat) (lg : Bool) (g : List Nat) (i : Nat) (vs : List Nat) (b : Tablero) :
    List.length (nsInner N lg g i vs b).1 = List.length b ∧
    (∀ j, (getCell (nsInner N lg g i vs b).1 j).valor = none →
       (getCell b j).valor = none) := by
  induction vs generalizing b with
  | nil => simp [nsInner]
  | cons v rest ih =>
    simp only [nsInner]
    split
    · obtain ⟨hl2, hm2⟩ := ih (setvalor N i v lg false b).1
      exact ⟨by rw [hl2, setvalor_length], fun j hj => setvalor_mono N i v lg false b j (hm2 j hj)⟩
    · exact ih b

theorem nsOuter_pres (N : Nat) (lg : Bool) (g l : List Nat) (b : Tablero) :
    List.length (nsOuter N lg g l b).1 = List.length b ∧
    (∀ j, (getCell (nsOuter N lg g l b).1 j).valor = none →
       (getCell b j).valor = none) := by
  induction l generalizing b with
  | nil => simp [nsOuter]
  | cons i rest ih =>
    simp only [nsOuter]
    split
    · obtain ⟨hl1, hm1⟩ := nsInner_pres N lg g i (getCell b i).posible b
      obtain ⟨hl2, hm2⟩ := ih (nsInner N lg g i (getCell b i).posible b).1
      exact ⟨by rw [hl2, hl1], fun j hj => hm1 j (hm2 j hj)⟩
    · exact ih b

theorem combLoop_pres (N : Nat) (lg : Bool) (g : List Nat) (largo : Nat) (cs : List (List Nat))
    (b : Tablero) :
    List.length (combLoop N lg g largo cs b).1 = List.length b ∧
    (∀ j, (getCell (combLoop N lg g largo cs b).1 j).valor = none →
       (getCell b j).valor = none) := by
  induction cs generalizing b with
  | nil => simp [combLoop]
  | cons comb rest ih =>
    simp only [combLoop]
    split
    · split
      · obtain ⟨hl1, hm1⟩ := asignar_pres N lg g comb b
        obtain ⟨hl2, hm2⟩ := ih (asignar N lg g comb b).1
        exact ⟨by rw [hl2, hl1], fun j hj => hm1 j (hm2 j hj)⟩
      · exact ih b
    · exact ih b

theorem largoLoop_pres (N : Nat) (lg : Bool) (g : List Nat) (i : Nat) (ls : List Nat)
    (b : Tablero) :
    List.length (largoLoop N lg g i ls b).1 = List.length b ∧
    (∀ j, (getCell (largoLoop N lg g i ls b).1 j).valor = none →
       (getCell b j).valor = none) := by
  induction ls generalizing b with
  | nil => simp [largoLoop]
  | cons largo rest ih =>
    simp only [largoLoop]
    obtain ⟨hl1, hm1⟩ := combLoop_pres N lg g largo (combinaciones largo (getCell b i).posible) b
    obtain ⟨hl2, hm2⟩ := ih (combLoop N lg g largo (combinaciones largo (getCell b i).posible) b).1
    exact ⟨by rw [hl2, hl1], fun j hj => hm1 j (hm2 j hj)⟩

theorem subsetOuter_pres (N : Nat) (lg : Bool) (g l : List Nat) (b : Tablero) :
    List.length (subsetOuter N lg g l b).1 = List.length b ∧
    (∀ j, (getCell (subsetOuter N lg g l b).1 j).valor = none →
       (getCell b j).valor = none) := by
  induction l generalizing b with
  | nil => simp [subsetOuter]
  | cons i rest ih =>
    simp only [subsetOuter]
    obtain ⟨hl1, hm1⟩ := largoLoop_pres N lg g i (List.range' 1 ((getCell b i).posible.length - 1)) b
    obtain ⟨hl2, hm2⟩ := ih (largoLoop N lg g i (List.range' 1 ((getCell b i).posible.length - 1)) b).1
    exact ⟨by rw [hl2, hl1], fun j hj => hm1 j (hm2 j hj)⟩

theorem grupoRevisar_pres (N : Nat) (lg : Bool) (g : List Nat) (b : Tablero) :
    List.length (grupoRevisar N lg g b).1 = List.length b ∧
    (∀ j, (getCell (grupoRevisar N lg g b).1 j).valor = none →
       (getCell b j).valor = none) := by
  simp only [grupoRevisar]
  obtain ⟨hl1, hm1⟩ := nsOuter_pres N lg g g b
  obtain ⟨hl2, hm2⟩ := subsetOuter_pres N lg g g (nsOuter N lg g g b).1
  exact ⟨by rw [hl2, hl1], fun j hj => hm1 j (hm2 j hj)⟩

theorem pasada_pres (N : Nat) (lg : Bool) (gs : List (List Nat)) (b : Tablero) :
    List.length (pasada N lg gs b).1 = List.length b ∧
    (∀ j, (getCell (pasada N lg gs b).1 j).valor = none →
       (getCell b j).valor = none) := by
  induction gs generalizing b with
  | nil => simp [pasada]
  | cons g rest ih =>
    simp only [pasada]
    obtain ⟨hl1, hm1⟩ := grupoRevisar_pres N lg g b
    obtain ⟨hl2, hm2⟩ := ih (grupoRevisar N lg g b).1
    exact ⟨by rw [hl2, hl1], fun j hj => hm1 j (hm2 j hj)⟩

theorem revisarLoop_pres (N : Nat) (lg : Bool) (k : Nat) (b : Tablero) (tot : Nat) :
    List.length (revisarLoop N lg k b tot).1 = List.length b ∧
    (∀ j, (getCell (revisarLoop N lg k b tot).1 j).valor = none →
       (getCell b j).valor = none) := by
  induction k generalizing b tot with
  | zero => simp [revisarLoop]
  | succ n ih =>
    simp only [revisarLoop]
    obtain ⟨hl1, hm1⟩ := pasada_pres N lg (gruposAll N) b
    split
    · exact ⟨hl1, hm1⟩
    · obtain ⟨hl2, hm2⟩ := ih (pasada N lg (gruposAll N) b).1 (tot + (pasada N lg (gruposAll N) b).2)
      exact ⟨by rw [hl2, hl1], fun j hj => hm1 j (hm2 j hj)⟩

theorem revisar_pres (N : Nat) (lg : Bool) (b : Tablero) :
    List.length (revisar N lg b).1 = List.length b ∧
    (∀ j, (getCell (revisar N lg b).1 j).valor = none →
       (getCell b j).valor = none) :=
  revisarLoop_pres N lg LIMITE b 0

theorem cargarAux_pres (N : Nat) (lg : Bool) (grid : List (List Nat)) (l : List (Nat × Nat))
    (b : Tablero) :
    List.length (cargarAux N lg grid l b).1 = List.length b ∧
    (∀ j, (getCell (cargarAux N lg grid l b).1 j).valor = none →
       (getCell b j).valor = none) := by
  induction l generalizing b with
  | nil => simp [cargarAux]
  | cons p rest ih =>
    obtain ⟨i, j⟩ := p
    simp only [cargarAux]
    split
    · split
      · obtain ⟨hl2, hm2⟩ := ih (setvalor N (i * N + j) ((grid.getD i []).getD j 0) true lg b).1
        exact ⟨by rw [hl2, setvalor_length],
          fun q hq => setvalor_mono N _ _ true lg b q (hm2 q hq)⟩
      · exact ⟨setvalor_length .., fun q hq => setvalor_mono N _ _ true lg b q hq⟩
    · exact ih b

/-! ### Counting empty cells -/

theorem countP_lt_of (l : List Nat) (p q : Nat → Bool)
    (himp : ∀ x ∈ l, p x = true → q x = true) (x0 : Nat) (hx0 : x0 ∈ l)
    (hq : q x0 = true) (hp : ¬p x0 = true) :
    l.countP p < l.countP q := by
  induction l with
  | nil => cases hx0
  | cons a t ih =>
    rw [List.countP_cons, List.countP_cons]
    have hrest : t.countP p ≤ t.countP q :=
      List.countP_mono_left (fun x hx => himp x (List.mem_cons_of_mem a hx))
    rcases List.mem_cons.mp hx0 with h | h
    · subst h
      rw [if_pos hq, if_neg hp]
      omega
    · have hstep := ih (fun x hx => himp x (List.mem_cons_of_mem a hx)) h
      have hhead : (if p a = true then 1 else 0) ≤ (if q a = true then 1 else 0) := by
        by_cases hpa : p a = true
        · rw [if_pos hpa, if_pos (himp a (List.mem_cons_self a t) hpa)]
        · rw [if_neg hpa]
          omega
      omega

theorem countEmpty_eq_countP (N : Nat) (b : Tablero) :
    countEmpty N b = (List.range (N * N)).countP (fun i => vacia (getCell b i)) := by
  rw [countEmpty, List.countP_eq_length_filter]

theorem countEmpty_mono (N : Nat) (b b2 : Tablero)
    (h : ∀ j, (getCell b2 j).valor = none → (getCell b j).valor = none) :
    countEmpty N b2 ≤ countEmpty N b := by
  rw [countEmpty_eq_countP, countEmpty_eq_countP]
  apply List.countP_mono_left
  intro x _ hx
  simp only [vacia, Option.isNone_iff_eq_none] at hx ⊢
  exact h x hx

theorem countEmpty_lt (N : Nat) (b b2 : Tablero) (idx : Nat) (hidx : idx < N * N)
    (h : ∀ j, (getCell b2 j).valor = none → (getCell b j).valor = none)
    (hb : (getCell b idx).valor = none) (hb2 : (getCell b2 idx).valor ≠ none) :
    countEmpty N b2 < countEmpty N b := by
  rw [countEmpty_eq_countP, countEmpty_eq_countP]
  apply countP_lt_of _ _ _ ?_ idx (List.mem_range.mpr hidx)
  · simp only [vacia, Option.isNone_iff_eq_none]
    exact hb
  · simp only [vacia, Option.isNone_iff_eq_none]
    exact hb2
  · intro x _ hx
    simp only [vacia, Option.isNone_iff_eq_none] at hx ⊢
    exact h x hx

/-- A successful assignment on an empty cell strictly reduces the number of
empty cells. -/
theorem countEmpty_setvalor_lt (N idx v : Nat) (o lg : Bool) (b : Tablero)
    (hmem : v ∈ (getCell b idx).posible) (hempty : (getCell b idx).valor = none)
    (hidx : idx < N * N) :
    countEmpty N (setvalor N idx v o lg b).1 < countEmpty N b := by
  apply countEmpty_lt N b _ idx hidx (fun j hj => setvalor_mono N idx v o lg b j hj) hempty
  rw [setvalor_target N idx v o lg b hmem]
  simp

/-! ### Clone and replicate -/

theorem length_copiar (N : Nat) (b : Tablero) : List.length (copiar N b) = N * N := by
  simp [copiar]

theorem getCell_copiar (N : Nat) (b : Tablero) (i : Nat) (h : i < N * N) :
    getCell (copiar N b) i =
      { valor := (getCell b i).valor, posible := (getCell b i).posible, original := false } := by
  simp [copiar, getCell, List.getD_eq_getElem?_getD, List.getElem?_map, List.getElem?_range h]

theorem countEmpty_copiar (N : Nat) (b : Tablero) :
    countEmpty N (copiar N b) = countEmpty N b := by
  rw [countEmpty, countEmpty]
  congr 1
  apply List.filter_congr
  intro i hi
  rw [getCell_copiar N b i (List.mem_range.mp hi)]
  rfl

theorem length_replicar (N : Nat) (a src : Tablero) :
    List.length (replicar N a src) = N * N := by
  simp [replicar]

theorem getCell_replicar (N : Nat) (a src : Tablero) (i : Nat) (h : i < N * N) :
    getCell (replicar N a src) i =
      { valor := (getCell src i).valor, posible := (getCell src i).posible,
        original := (getCell a i).original } := by
  simp [replicar, getCell, List.getD_eq_getElem?_getD, List.getElem?_map, List.getElem?_range h]

/-! ### The minimum-remaining-values scan -/

theorem mrvAux_spec (b : Tablero) : ∀ (k a m : Nat) (best : Option Nat),
    (∀ j, best = some j → vacia (getCell b j) ∧ 0 < (getCell b j).posible.length ∧
       (getCell b j).posible.length = m ∧ j < a) →
    (mrvAux b (List.range' a k) best m).2 ≤ m ∧
    ((mrvAux b (List.range' a k) best m).1 ≠ best →
      (mrvAux b (List.range' a k) best m).2 < m) ∧
    ((mrvAux b (List.range' a k) best m).1 = none →
      best = none ∧ ∀ i ∈ List.range' a k,
        ¬(vacia (getCell b i) ∧ 0 < (getCell b i).posible.length ∧
          (getCell b i).posible.length < m)) ∧
    (∀ j, (mrvAux b (List.range' a k) best m).1 = some j →
      vacia (getCell b j) ∧ 0 < (getCell b j).posible.length ∧
      (getCell b j).posible.length = (mrvAux b (List.range' a k) best m).2 ∧
      j < a + k ∧
      (∀ i ∈ List.range' a k, vacia (getCell b i) → 0 < (getCell b i).posible.length →
        (mrvAux b (List.range' a k) best m).2 ≤ (getCell b i).posible.length) ∧
      (∀ i ∈ List.range' a k, i < j → vacia (getCell b i) →
        0 < (getCell b i).posible.length →
        (mrvAux b (List.range' a k) best m).2 < (getCell b i).posible.length)) := by
  intro k
  induction k with
  | zero =>
    intro a m best hinv
    simp only [List.range'_zero, mrvAux]
    refine ⟨le_refl m, by simp, fun h => ⟨h, by simp⟩, ?_⟩
    · intro j hj
      obtain ⟨h1, h2, h3, h4⟩ := hinv j hj
      exact ⟨h1, h2, h3, by omega, by simp, by simp⟩
  | succ n ih =>
    intro a m best hinv
    rw [List.range'_succ]
    simp only [mrvAux]
    by_cases hq : vacia (getCell b a) ∧ 0 < (getCell b a).posible.length ∧
        (getCell b a).posible.length < m
    · rw [if_pos hq]
      obtain ⟨hm2, hchg, hnone, hsome⟩ := ih (a + 1) ((getCell b a).posible.length) (some a)
        (by
          intro j hj
          cases hj
          exact ⟨hq.1, hq.2.1, rfl, by omega⟩)
      refine ⟨by omega, fun _ => by omega, ?_, ?_⟩
      · intro hn
        obtain ⟨hcontra, _⟩ := hnone hn
        cases hcontra
      · intro j hj
        obtain ⟨h1, h2, h3, h4, h5, h6⟩ := hsome j hj
        refine ⟨h1, h2, h3, by omega, ?_, ?_⟩
        · intro i hi hvi hpi
          rcases List.mem_cons.mp hi with h | h
          · subst h
            omega
          · exact h5 i h hvi hpi
        · intro i hi hij hvi hpi
          rcases List.mem_cons.mp hi with h | h
          · subst h
            have hne : (mrvAux b (List.range' (i + 1) n) (some i)
                ((getCell b i).posible.length)).1 ≠ some i := by
              rw [hj]
              intro hcc
              have hji : j = i := by injection hcc
              omega
            have := hchg hne
            omega
          · exact h6 i h hij hvi hpi
    · rw [if_neg hq]
      obtain ⟨hm2, hchg, hnone, hsome⟩ := ih (a + 1) m best
        (by
          intro j hj
          obtain ⟨h1, h2, h3, h4⟩ := hinv j hj
          exact ⟨h1, h2, h3, by omega⟩)
      refine ⟨hm2, hchg, ?_, ?_⟩
      · intro hn
        obtain ⟨hb0, hrest⟩ := hnone hn
        refine ⟨hb0, ?_⟩
        intro i hi
        rcases List.mem_cons.mp hi with h | h
        · subst h
          exact hq
        · exact hrest i h
      · intro j hj
        obtain ⟨h1, h2, h3, h4, h5, h6⟩ := hsome j hj
        refine ⟨h1, h2, h3, by omega, ?_, ?_⟩
        · intro i hi hvi hpi
          rcases List.mem_cons.mp hi with h | h
          · subst h
            have hlen : m ≤ (getCell b i).posible.length := by
              by_contra hcon
              exact hq ⟨hvi, hpi, by omega⟩
            omega
          · exact h5 i h hvi hpi
        · intro i hi hij hvi hpi
          rcases List.mem_cons.mp hi with h | h
          · subst h
            have hlen : m ≤ (getCell b i).posible.length := by
              by_contra hcon
              exact hq ⟨hvi, hpi, by omega⟩
            have hne : (mrvAux b (List.range' (i + 1) n) best m).1 ≠ best := by
              rw [hj]
              intro hcc
              obtain ⟨_, _, _, hlt⟩ := hinv j hcc.symm
              omega
            have := hchg hne
            omega
          · exact h6 i h hij hvi hpi

theorem vacia_iff (c : Celda) : vacia c = true ↔ c.valor = none := by
  simp [vacia, Option.isNone_iff_eq_none]

/-- When the scan returns no index, no empty cell qualifies. -/
theorem mrvIndex_none (N : Nat) (b : Tablero) (h : mrvIndex N b = none) :
    ∀ i, i < N * N → ¬(vacia (getCell b i) ∧ 0 < (getCell b i).posible.length ∧
      (getCell b i).posible.length < N + 1) := by
  intro i hi
  have hsp := mrvAux_spec b (N * N) 0 (N + 1) none (by simp)
  rw [mrvIndex, List.range_eq_range'] at h
  exact (hsp.2.2.1 h).2 i (List.mem_range'_1.mpr ⟨by omega, by omega⟩)

/-- The scan selects the first empty cell of minimal candidate count. -/
theorem mrvIndex_some (N : Nat) (b : Tablero) (j : Nat) (h : mrvIndex N b = some j) :
    vacia (getCell b j) = true ∧ 0 < (getCell b j).posible.length ∧
    (getCell b j).posible.length ≤ N ∧ j < N * N ∧
    (∀ i, i < N * N → vacia (getCell b i) = true → 0 < (getCell b i).posible.length →
      (getCell b j).posible.length ≤ (getCell b i).posible.length) ∧
    (∀ i, i < N * N → i < j → vacia (getCell b i) = true →
      0 < (getCell b i).posible.length →
      (getCell b j).posible.length < (getCell b i).posible.length) := by
  have hsp := mrvAux_spec b (N * N) 0 (N + 1) none (by simp)
  rw [mrvIndex, List.range_eq_range'] at h
  obtain ⟨h1, h2, h3, h4, h5, h6⟩ := hsp.2.2.2 j h
  have hchg := hsp.2.1 (by rw [h]; simp)
  refine ⟨h1, h2, by omega, by omega, ?_, ?_⟩
  · intro i hi hvi hpi
    have := h5 i (List.mem_range'_1.mpr ⟨by omega, by omega⟩) hvi hpi
    omega
  · intro i hi hij hvi hpi
    have := h6 i (List.mem_range'_1.mpr ⟨by omega, by omega⟩) hij hvi hpi
    omega

/-! ### The search driver -/

theorem busqueda_rl (N fuel : Nat) : (busqueda N fuel).rl = rlGo N (busqueda N fuel).rf := by
  cases fuel <;> rfl

theorem resolverLoop_rlGo (N fuel : Nat) (lg : Bool) (b1 : Tablero) (cambios idx : Nat)
    (vs : List Nat) :
    resolverLoop N fuel lg b1 cambios idx vs =
      rlGo N ((busqueda N fuel).rf) lg b1 cambios idx vs := by
  show (busqueda N fuel).rl lg b1 cambios idx vs = _
  rw [busqueda_rl]

theorem resolverF_invalid (N f : Nat) (lg : Bool) (b : Tablero)
    (h : valido N b = false) :
    resolverF N (f + 1) lg b = some (b, 0) := by
  show (busqueda N (f + 1)).rf lg b = _
  simp only [busqueda]
  rw [h]
  rfl

theorem resolverF_solved (N f : Nat) (lg : Bool) (b : Tablero)
    (h : valido N b = true) (h2 : verificar N (revisar N lg b).1 = true) :
    resolverF N (f + 1) lg b = some ((revisar N lg b).1, (revisar N lg b).2) := by
  show (busqueda N (f + 1)).rf lg b = _
  simp only [busqueda]
  rw [h, h2]
  rfl

theorem resolverF_crash (N f : Nat) (lg : Bool) (b : Tablero)
    (h : valido N b = true) (h2 : verificar N (revisar N lg b).1 = false)
    (h3 : mrvIndex N (revisar N lg b).1 = none) :
    resolverF N (f + 1) lg b = none := by
  show (busqueda N (f + 1)).rf lg b = _
  simp only [busqueda]
  rw [h, h2, h3]
  rfl

theorem resolverF_rec (N f : Nat) (lg : Bool) (b : Tablero) (idx : Nat)
    (h : valido N b = true) (h2 : verificar N (revisar N lg b).1 = false)
    (h3 : mrvIndex N (revisar N lg b).1 = some idx) :
    resolverF N (f + 1) lg b =
      resolverLoop N f lg (revisar N lg b).1 (revisar N lg b).2 idx
        (getCell (revisar N lg b).1 idx).posible := by
  show (busqueda N (f + 1)).rf lg b = _
  simp only [busqueda]
  rw [h, h2, h3]
  rfl

theorem resolverLoop_nil (N f : Nat) (lg : Bool) (b1 : Tablero) (cambios idx : Nat) :
    resolverLoop N f lg b1 cambios idx [] = some (b1, cambios) := by
  rw [resolverLoop_rlGo]
  rfl

theorem resolverLoop_cons_fail (N f : Nat) (lg : Bool) (b1 : Tablero) (cambios idx v : Nat)
    (vs : List Nat) (h : ¬(setvalor N idx v lg false (copiar N b1)).2 = true) :
    resolverLoop N f lg b1 cambios idx (v :: vs) =
      resolverLoop N f lg b1 cambios idx vs := by
  rw [resolverLoop_rlGo, resolverLoop_rlGo]
  simp only [rlGo]
  rw [if_neg h]

theorem resolverLoop_cons_ok (N f : Nat) (lg : Bool) (b1 : Tablero) (cambios idx v : Nat)
    (vs : List Nat) (h : (setvalor N idx v lg false (copiar N b1)).2 = true) :
    resolverLoop N f lg b1 cambios idx (v :: vs) =
      match resolverF N f lg (setvalor N idx v lg false (copiar N b1)).1 with
      | none => none
      | some (copia2, resultado) =>
        if verificar N copia2 then some (replicar N b1 copia2, cambios + resultado)
        else resolverLoop N f lg b1 cambios idx vs := by
  rw [resolverLoop_rlGo]
  simp only [rlGo]
  rw [if_pos h]
  rw [show (busqueda N f).rf = resolverF N f from rfl]
  rcases resolverF N f lg (setvalor N idx v lg false (copiar N b1)).1 with _ | ⟨copia2, resultado⟩
  · rfl
  · dsimp only
    by_cases hv : verificar N copia2 = true
    · rw [if_pos hv]
      rw [if_pos hv]
    · rw [if_neg hv]
      rw [if_neg hv]
      exact (resolverLoop_rlGo N f lg b1 cambios idx vs).symm

/-- The recursion fuel of `resolver` is irrelevant beyond the number of
empty cells: every recursive call is made on a clone with strictly fewer
empty cells, so `countEmpty + 1` levels suffice. -/
theorem resolverF_stable (N : Nat) (lg : Bool) : ∀ n f2 b, countEmpty N b < n →
    countEmpty N b < f2 → resolverF N n lg b = resolverF N f2 lg b := by
  intro n
  induction n using Nat.strong_induction_on with
  | _ n ih =>
    intro f2 b hn hf2
    match n, f2, hn, hf2 with
    | f + 1, d + 1, hn, hf2 =>
      by_cases hval : valido N b = true
      · by_cases hver : verificar N (revisar N lg b).1 = true
        · rw [resolverF_solved N f lg b hval hver, resolverF_solved N d lg b hval hver]
        · rw [Bool.not_eq_true] at hver
          cases hmrv : mrvIndex N (revisar N lg b).1 with
          | none =>
            rw [resolverF_crash N f lg b hval hver hmrv,
              resolverF_crash N d lg b hval hver hmrv]
          | some idx =>
            rw [resolverF_rec N f lg b idx hval hver hmrv,
              resolverF_rec N d lg b idx hval hver hmrv]
            obtain ⟨hvac, _, _, hidx, _, _⟩ := mrvIndex_some N _ idx hmrv
            have hvacn : (getCell (revisar N lg b).1 idx).valor = none :=
              (vacia_iff _).mp hvac
            have hb1ce : countEmpty N (revisar N lg b).1 ≤ countEmpty N b :=
              countEmpty_mono N b _ (revisar_pres N lg b).2
            generalize (getCell (revisar N lg b).1 idx).posible = vs
            induction vs with
            | nil => rw [resolverLoop_nil, resolverLoop_nil]
            | cons v rest ihv =>
              by_cases hok : (setvalor N idx v lg false (copiar N (revisar N lg b).1)).2 = true
              · rw [resolverLoop_cons_ok N f lg _ _ idx v rest hok,
                  resolverLoop_cons_ok N d lg _ _ idx v rest hok]
                have hmem : v ∈ (getCell (copiar N (revisar N lg b).1) idx).posible :=
                  (setvalor_snd_iff N idx v lg false _).mp hok
                have hvc : (getCell (copiar N (revisar N lg b).1) idx).valor = none := by
                  rw [getCell_copiar N _ idx hidx]
                  exact hvacn
                have hlt := countEmpty_setvalor_lt N idx v lg false
                  (copiar N (revisar N lg b).1) hmem hvc hidx
                rw [countEmpty_copiar] at hlt
                have heq := ih f (by omega) d
                  (setvalor N idx v lg false (copiar N (revisar N lg b).1)).1
                  (by omega) (by omega)
                rw [heq, ihv]
              · rw [resolverLoop_cons_fail N f lg _ _ idx v rest hok,
                  resolverLoop_cons_fail N d lg _ _ idx v rest hok]
                exact ihv
      · rw [Bool.not_eq_true] at hval
        rw [resolverF_invalid N f lg b hval, resolverF_invalid N d lg b hval]

/-- Any fuel above the number of empty cells computes `Tablero.resolver`. -/
theorem resolverF_eq_resolver (N fuel : Nat) (lg : Bool) (b : Tablero)
    (h : countEmpty N b < fuel) :
    resolverF N fuel lg b = resolver N lg b :=
  resolverF_stable N lg fuel (countEmpty N b + 1) b h (by omega)

/-! ### Claim C5: assignment error handling -/

/-- C5: `Celda.setvalor` fails exactly when `v` is not among the cell's
candidates, and a failed call returns the board unchanged; a successful call
commits value `v`, the singleton candidate list and the given flag at the
target cell, and runs the elimination of `v` through the cell's row, column
and box groups, the commit never being rolled back (the target's committed
state survives the whole cascade even when an elimination empties a
sibling's candidate list). -/
theorem C5_setvalor (N idx v : Nat) (o lg : Bool) (b : Tablero) :
    ((setvalor N idx v o lg b).2 = true ↔ v ∈ (getCell b idx).posible) ∧
    (v ∉ (getCell b idx).posible → setvalor N idx v o lg b = (b, false)) ∧
    (v ∈ (getCell b idx).posible →
      getCell (setvalor N idx v o lg b).1 idx =
        { valor := some v, posible := [v], original := o } ∧
      setvalor N idx v o lg b =
        ((grupoQuitar N (cuadroIdx N (boxOf N idx)) idx v lg
          (grupoQuitar N (colIdx N (idx % N)) idx v lg
            (grupoQuitar N (filaIdx N (idx / N)) idx v lg
              (setCell b idx { valor := some v, posible := [v], original := o })).1).1).1,
         true)) :=
  ⟨setvalor_snd_iff N idx v o lg b,
   fun h => setvalor_neg N idx v o lg b h,
   fun h => ⟨setvalor_target N idx v o lg b h, setvalor_pos N idx v o lg b h⟩⟩

/-- C5 at concrete inputs: a non-candidate is rejected without mutation, and
a successful assignment stays committed even though it empties the sibling
cell's candidate list. -/
theorem C5_setvalor_witness :
    (3 ∉ (getCell [ec [1], ec [1], ec [1, 2], ec [1, 2]] 0).posible ∧
     setvalor 2 0 3 true false [ec [1], ec [1], ec [1, 2], ec [1, 2]] =
       ([ec [1], ec [1], ec [1, 2], ec [1, 2]], false)) ∧
    (1 ∈ (getCell [ec [1], ec [1], ec [1, 2], ec [1, 2]] 0).posible ∧
     getCell (setvalor 2 0 1 true false [ec [1], ec [1], ec [1, 2], ec [1, 2]]).1 0 =
       { valor := some 1, posible := [1], original := true } ∧
     (getCell (setvalor 2 0 1 true false [ec [1], ec [1], ec [1, 2], ec [1, 2]]).1 1).posible
       = []) :=
  ⟨⟨by decide, (C5_setvalor 2 0 3 true false _).2.1 (by decide)⟩,
   ⟨by decide, ((C5_setvalor 2 0 1 true false _).2.2 (by decide)).1, by decide⟩⟩

/-! ### Claim C6: elimination error handling -/

/-- C9 fails as stated: `Tablero.copiar` does not copy the given-flag.
Loading a single given marks its cell `original = true`, but the clone's
cell carries `original = false`, so clone-then-zero-mutation does not
compare equal cell-for-cell. -/
theorem C9_counterexample :
    (getCell (cargar 4 false gridUnaDada (nuevoTablero 4)).1 0).original = true ∧
    (getCell (copiar 4 (cargar 4 false gridUnaDada (nuevoTablero 4)).1) 0).original
      = false := by
  decide

/-- C9 amended: the clone agrees with the original on every cell's value and
candidate list (the solving-relevant projection `vp`), each clone cell
holding the source's value and candidates but a cleared given-flag. -/
theorem C9_copiar (N : Nat) (b : Tablero) (h : List.length b = N * N) :
    vp (copiar N b) = vp b ∧
    ∀ i, getCell (copiar N b) i =
      { valor := (getCell b i).valor, posible := (getCell b i).posible,
        original := false } := by
  constructor
  · apply List.ext_getElem?
    intro i
    simp only [vp, copiar, List.getElem?_map]
    by_cases hi : i < N * N
    · have hb : i < List.length b := by omega
      rw [List.getElem?_range hi, List.getElem?_eq_getElem hb]
      simp [getCell, List.getD_eq_getElem?_getD, List.getElem?_eq_getElem hb]
    · have h1 : List.length (List.range (N * N)) ≤ i := by simpa using hi
      have h2 : List.length b ≤ i := by omega
      rw [List.getElem?_eq_none h1, List.getElem?_eq_none h2]
      rfl
  · intro i
    by_cases hi : i < N * N
    · exact getCell_copiar N b i hi
    · have h1 : getCell (copiar N b) i = defCelda :=
        getCell_oob _ i (by rw [length_copiar]; omega)
      have h2 : getCell b i = defCelda := getCell_oob b i (by omega)
      rw [h1, h2]
      rfl

/-- C9 amended, at a concrete input: the clone of a loaded board has the
same values and candidate lists. -/
theorem C9_copiar_witness :
    vp (copiar 4 (cargar 4 false gridUnaDada (nuevoTablero 4)).1) =
      vp (cargar 4 false gridUnaDada (nuevoTablero 4)).1 :=
  (C9_copiar 4 (cargar 4 false gridUnaDada (nuevoTablero 4)).1 (by decide)).1

/-! ### Claim C10: safety of the cell-selection step -/

/-- C10 fails as stated: a board can pass `valido`, fail `verificar` after
the propagation pre-pass, and yet leave the minimum-remaining-values scan
empty-handed (`mrvIndex = none`, every empty cell having an empty candidate
list), whereupon the unguarded indexing crashes — the embedding returns
`none`. -/
theorem C10_counterexample :
    valido 4 tableroColapso = true ∧
    verificar 4 (revisar 4 false tableroColapso).1 = false ∧
    mrvIndex 4 (revisar 4 false tableroColapso).1 = none ∧
    resolver 4 false tableroColapso = none := by
  decide

/-- C10 amended: on a board that reaches the cell-selection step, the scan
coming back empty makes `resolver` crash (modelled as `none`), and whenever
the scan does return an index the subsequent indexing is safe: the selected
cell is in range, empty, and has a non-empty candidate list. -/
theorem C10_mrv (N f : Nat) (lg : Bool) (b : Tablero)
    (hval : valido N b = true)
    (hver : verificar N (revisar N lg b).1 = false) :
    (mrvIndex N (revisar N lg b).1 = none → resolverF N (f + 1) lg b = none) ∧
    (∀ idx, mrvIndex N (revisar N lg b).1 = some idx →
       vacia (getCell (revisar N lg b).1 idx) = true ∧
       (getCell (revisar N lg b).1 idx).posible ≠ [] ∧
       idx < N * N) := by
  refine ⟨fun hm => resolverF_crash N f lg b hval hver hm, ?_⟩
  intro idx hm
  obtain ⟨h1, h2, _, h4, _, _⟩ := mrvIndex_some N _ idx hm
  refine ⟨h1, ?_, h4⟩
  intro hnil
  rw [hnil] at h2
  simp at h2

/-- C10 amended, at a concrete input: the crash branch fires on the
collapsing board. -/
theorem C10_mrv_witness : resolverF 4 (3 + 1) false tableroColapso = none :=
  (C10_mrv 4 3 false tableroColapso (by decide) (by decide)).1 (by decide)

/-! ### Claim C2: the claimed global invariant -/

/-- The duplicate scan of `Tablero.valido` accepts exactly the groups whose
assigned values avoid both each other and the accumulator. -/
theorem sinDupAux_iff (b : Tablero) : ∀ (l : List Nat) (vistos : List Nat),
    sinDupAux b l vistos = true ↔
      (valoresAsignados b l).Nodup ∧ ∀ x ∈ valoresAsignados b l, x ∉ vistos := by
  intro l
  induction l with
  | nil => intro vistos; simp [sinDupAux, valoresAsignados]
  | cons i rest ih =>
    intro vistos
    cases hv : (getCell b i).valor with
    | none =>
      rw [show sinDupAux b (i :: rest) vistos = sinDupAux b rest vistos by
        simp [sinDupAux, hv]]
      rw [show valoresAsignados b (i :: rest) = valoresAsignados b rest by
        simp [valoresAsignados, List.filterMap_cons, hv]]
      exact ih vistos
    | some v =>
      rw [show valoresAsignados b (i :: rest) = v :: valoresAsignados b rest by
        simp [valoresAsignados, List.filterMap_cons, hv]]
      by_cases hvis : v ∈ vistos
      · rw [show sinDupAux b (i :: rest) vistos = false by simp [sinDupAux, hv, hvis]]
        simp only [Bool.false_eq_true, false_iff]
        intro ⟨_, hall⟩
        exact hall v (List.mem_cons_self v _) hvis
      · rw [show sinDupAux b (i :: rest) vistos = sinDupAux b rest (v :: vistos) by
          simp [sinDupAux, hv, hvis]]
        rw [ih (v :: vistos)]
        constructor
        · intro ⟨hnd, hall⟩
          refine ⟨List.nodup_cons.mpr ⟨fun hm => (hall v hm) (List.mem_cons_self v _), hnd⟩,
            ?_⟩
          intro x hx
          rcases List.mem_cons.mp hx with h | h
          · subst h; exact hvis
          · exact fun hm => (hall x h) (List.mem_cons_of_mem v hm)
        · intro ⟨hnd, hall⟩
          obtain ⟨hv1, hnd'⟩ := List.nodup_cons.mp hnd
          refine ⟨hnd', ?_⟩
          intro x hx hm
          rcases List.mem_cons.mp hm with h | h
          · subst h; exact hv1 hx
          · exact hall x (List.mem_cons_of_mem v hx) h

/-- The propagation round loop unrolled: some `m ≤ k` rounds are counted,
every counted round reported changes, the total is their sum, and the loop
stopped early exactly on a zero-change round (which still ran, leaving its
board state). -/
theorem revisarLoop_spec (N : Nat) (lg : Bool) : ∀ (k : Nat) (b : Tablero) (tot : Nat),
    ∃ m, m ≤ k ∧
      (revisarLoop N lg k b tot).2 = tot + sumaCambios N lg m b ∧
      (revisarLoop N lg k b tot).1 = rondasIter N lg (if m < k then m + 1 else m) b ∧
      (∀ j, j < m → rondaCambios N lg (rondasIter N lg j b) ≠ 0) ∧
      (m < k → rondaCambios N lg (rondasIter N lg m b) = 0) := by
  intro k
  induction k with
  | zero =>
    intro b tot
    exact ⟨0, Nat.le_refl 0, by simp [revisarLoop, sumaCambios], by simp [revisarLoop, rondasIter],
      fun j hj => absurd hj (Nat.not_lt_zero j), fun h => absurd h (Nat.lt_irrefl 0)⟩
  | succ n ih =>
    intro b tot
    by_cases hz : (pasada N lg (gruposAll N) b).2 = 0
    · refine ⟨0, Nat.zero_le _, ?_, ?_, fun j hj => absurd hj (Nat.not_lt_zero j), fun _ => ?_⟩
      · rw [show revisarLoop N lg (n + 1) b tot = ((pasada N lg (gruposAll N) b).1, tot) by
          simp [revisarLoop, hz]]
        simp [sumaCambios]
      · rw [show revisarLoop N lg (n + 1) b tot = ((pasada N lg (gruposAll N) b).1, tot) by
          simp [revisarLoop, hz]]
        simp [rondasIter, ronda]
      · simpa [rondaCambios, rondasIter] using hz
    · have hstep : revisarLoop N lg (n + 1) b tot =
          revisarLoop N lg n (pasada N lg (gruposAll N) b).1
            (tot + (pasada N lg (gruposAll N) b).2) := by
        simp [revisarLoop, hz]
      obtain ⟨m, hm, hsnd, hfst, hpos, hstop⟩ :=
        ih (pasada N lg (gruposAll N) b).1 (tot + (pasada N lg (gruposAll N) b).2)
      have hiter : ∀ j, rondasIter N lg j (pasada N lg (gruposAll N) b).1 =
          rondasIter N lg (j + 1) b := by
        intro j
        rfl
      refine ⟨m + 1, by omega, ?_, ?_, ?_, ?_⟩
      · rw [hstep, hsnd]
        show _ = tot + sumaCambios N lg (m + 1) b
        rw [show sumaCambios N lg (m + 1) b =
          rondaCambios N lg b + sumaCambios N lg m (ronda N lg b) from rfl]
        show tot + (pasada N lg (gruposAll N) b).2 + _ = _
        rw [show rondaCambios N lg b = (pasada N lg (gruposAll N) b).2 from rfl]
        rw [show sumaCambios N lg m (ronda N lg b) =
          sumaCambios N lg m (pasada N lg (gruposAll N) b).1 from rfl]
        omega
      · rw [hstep, hfst]
        by_cases hmn : m < n
        · rw [if_pos hmn, if_pos (by omega : m + 1 < n + 1), hiter]
        · rw [if_neg hmn, if_neg (by omega : ¬m + 1 < n + 1), hiter]
      · intro j hj
        match j with
        | 0 =>
          show rondaCambios N lg b ≠ 0
          show (pasada N lg (gruposAll N) b).2 ≠ 0
          exact hz
        | j' + 1 =>
          rw [← hiter j']
          exact hpos j' (by omega)
      · intro hlt
        rw [← hiter m]
        exact hstop (by omega)

/-- C4: `Tablero.revisar` performs at most `LIMITE = 5` rounds — each a
sweep of `Grupo.revisar` over every row, then every column, then every box,
summing their reported changes — stops as soon as a round reports zero
changes, and returns the sum of the changes of the completed (counted)
rounds. -/
theorem C4_revisar (N : Nat) (lg : Bool) (b : Tablero) :
    ∃ m, m ≤ LIMITE ∧
      (revisar N lg b).2 = sumaCambios N lg m b ∧
      (revisar N lg b).1 = rondasIter N lg (if m < LIMITE then m + 1 else m) b ∧
      (∀ j, j < m → rondaCambios N lg (rondasIter N lg j b) ≠ 0) ∧
      (m < LIMITE → rondaCambios N lg (rondasIter N lg m b) = 0) := by
  obtain ⟨m, hm, hsnd, hfst, hpos, hstop⟩ := revisarLoop_spec N lg LIMITE b 0
  exact ⟨m, hm, by rw [revisar, hsnd, Nat.zero_add], by rw [revisar, hfst], hpos, hstop⟩

/-! ### Claim C7: termination and recursion depth of the search -/

theorem getCell_nuevo (N i : Nat) (h : i < N * N) :
    getCell (nuevoTablero N) i = freshCelda N := by
  rw [nuevoTablero, getCell, List.getD_eq_getElem?_getD, List.getElem?_replicate]
  simp [h]

theorem countEmpty_nuevo (N : Nat) : countEmpty N (nuevoTablero N) = N * N := by
  rw [countEmpty]
  rw [List.filter_eq_self.mpr]
  · exact List.length_range (N * N)
  · intro i hi
    rw [getCell_nuevo N i (List.mem_range.mp hi)]
    rfl

theorem countEmpty_le (N : Nat) (b : Tablero) : countEmpty N b ≤ N * N := by
  rw [countEmpty]
  calc ((List.range (N * N)).filter (fun i => vacia (getCell b i))).length
      ≤ (List.range (N * N)).length := List.length_filter_le _ _
    _ = N * N := List.length_range (N * N)

/-- When the whole load succeeds, every nonzero given's cell ends committed. -/
theorem cargarAux_committed (N : Nat) (lg : Bool) (grid : List (List Nat)) :
    ∀ (l : List (Nat × Nat)) (b : Tablero) (i j : Nat),
    (cargarAux N lg grid l b).2 = true → (i, j) ∈ l →
    (grid.getD i []).getD j 0 ≠ 0 →
    (getCell (cargarAux N lg grid l b).1 (i * N + j)).valor ≠ none := by
  intro l
  induction l with
  | nil => intro b i j _ hmem; cases hmem
  | cons p rest ih =>
    obtain ⟨a, c⟩ := p
    intro b i j hflag hmem hval
    rcases List.mem_cons.mp hmem with heq | hmem'
    · obtain ⟨hia, hjc⟩ := Prod.mk.injEq .. ▸ heq
      subst hia
      subst hjc
      rw [show cargarAux N lg grid ((i, j) :: rest) b =
          (if (grid.getD i []).getD j 0 ≠ 0 then
            (if (setvalor N (i * N + j) ((grid.getD i []).getD j 0) true lg b).2 then
              cargarAux N lg grid rest
                (setvalor N (i * N + j) ((grid.getD i []).getD j 0) true lg b).1
            else ((setvalor N (i * N + j) ((grid.getD i []).getD j 0) true lg b).1, false))
          else cargarAux N lg grid rest b) from rfl] at hflag ⊢
      rw [if_pos hval] at hflag ⊢
      by_cases hr : (setvalor N (i * N + j) ((grid.getD i []).getD j 0) true lg b).2 = true
      · rw [if_pos hr] at hflag ⊢
        have hmemv : (grid.getD i []).getD j 0 ∈ (getCell b (i * N + j)).posible :=
          (setvalor_snd_iff N (i * N + j) _ true lg b).mp hr
        have htar := setvalor_target N (i * N + j) _ true lg b hmemv
        intro hnone
        have := (cargarAux_pres N lg grid rest _).2 (i * N + j) hnone
        rw [htar] at this
        cases this
      · rw [if_neg hr] at hflag
        cases hflag
    · rw [show cargarAux N lg grid ((a, c) :: rest) b =
          (if (grid.getD a []).getD c 0 ≠ 0 then
            (if (setvalor N (a * N + c) ((grid.getD a []).getD c 0) true lg b).2 then
              cargarAux N lg grid rest
                (setvalor N (a * N + c) ((grid.getD a []).getD c 0) true lg b).1
            else ((setvalor N (a * N + c) ((grid.getD a []).getD c 0) true lg b).1, false))
          else cargarAux N lg grid rest b) from rfl] at hflag ⊢
      by_cases hv0 : (grid.getD a []).getD c 0 ≠ 0
      · rw [if_pos hv0] at hflag ⊢
        by_cases hr : (setvalor N (a * N + c) ((grid.getD a []).getD c 0) true lg b).2 = true
        · rw [if_pos hr] at hflag ⊢
          exact ih _ i j hflag hmem' hval
        · rw [if_neg hr] at hflag
          cases hflag
      · rw [if_neg hv0] at hflag ⊢
        exact ih b i j hflag hmem' hval

/-- C7: the search terminates — any recursion fuel above the number of empty
cells at call time computes `Tablero.resolver` — because every recursive
call is made on a clone holding strictly fewer empty cells; the number of
empty cells is at most `N²`, and at most `N² − 1` on a successfully loaded
puzzle with at least one given. -/
theorem C7_resolver (N fuel : Nat) (lg : Bool) (b : Tablero) (grid : List (List Nat))
    (i j : Nat) (hfuel : countEmpty N b < fuel)
    (hload : (cargar N lg grid (nuevoTablero N)).2 = true)
    (hi : i < N) (hj : j < N) (hval : (grid.getD i []).getD j 0 ≠ 0) :
    resolverF N fuel lg b = resolver N lg b ∧
    countEmpty N b ≤ N * N ∧
    (∀ b' idx v, mrvIndex N b' = some idx →
       (setvalor N idx v lg false (copiar N b')).2 = true →
       countEmpty N (setvalor N idx v lg false (copiar N b')).1 < countEmpty N b') ∧
    countEmpty N (cargar N lg grid (nuevoTablero N)).1 ≤ N * N - 1 := by
  refine ⟨resolverF_eq_resolver N fuel lg b hfuel, countEmpty_le N b, ?_, ?_⟩
  · intro b' idx v hmrv hok
    obtain ⟨hvac, _, _, hidx, _, _⟩ := mrvIndex_some N b' idx hmrv
    have hmem : v ∈ (getCell (copiar N b') idx).posible :=
      (setvalor_snd_iff N idx v lg false _).mp hok
    have hvc : (getCell (copiar N b') idx).valor = none := by
      rw [getCell_copiar N b' idx hidx]
      exact (vacia_iff _).mp hvac
    have := countEmpty_setvalor_lt N idx v lg false (copiar N b') hmem hvc hidx
    rwa [countEmpty_copiar] at this
  · have hidx : i * N + j < N * N := by
      have h1 : (i + 1) * N ≤ N * N := Nat.mul_le_mul_right N hi
      have h2 : (i + 1) * N = i * N + N := by ring
      omega
    have hmemIdx : (i, j) ∈ idxPairs N := by
      rw [idxPairs, List.mem_flatMap]
      exact ⟨i, List.mem_range.mpr hi,
        List.mem_map.mpr ⟨j, List.mem_range.mpr hj, rfl⟩⟩
    have hcom := cargarAux_committed N lg grid (idxPairs N) (nuevoTablero N) i j
      hload hmemIdx hval
    have hlt : countEmpty N (cargar N lg grid (nuevoTablero N)).1 <
        countEmpty N (nuevoTablero N) := by
      apply countEmpty_lt N (nuevoTablero N) _ (i * N + j) hidx
        (fun q hq => (cargarAux_pres N lg grid (idxPairs N) (nuevoTablero N)).2 q hq)
      · rw [getCell_nuevo N _ hidx]
        rfl
      · exact hcom
    rw [countEmpty_nuevo] at hlt
    omega

/-- C7 at a concrete input: the fuel-independence and the loaded-puzzle
empty-cell bound on the source's own 4-by-4 test puzzle. -/
theorem C7_resolver_witness :
    resolverF 4 20 false (cargar 4 false gridBusqueda (nuevoTablero 4)).1 =
      resolver 4 false (cargar 4 false gridBusqueda (nuevoTablero 4)).1 ∧
    countEmpty 4 (cargar 4 false gridBusqueda (nuevoTablero 4)).1 ≤ 4 * 4 - 1 := by
  have h := C7_resolver 4 20 false (cargar 4 false gridBusqueda (nuevoTablero 4)).1
    gridBusqueda 0 0 (by decide) (by decide) (by decide) (by decide) (by decide)
  exact ⟨h.1, h.2.2.2⟩

/-! ### Claim C3: characterising the solved check -/

theorem valoresAsignados_length (b : Tablero) : ∀ (g : List Nat),
    (∀ i ∈ g, (getCell b i).valor ≠ none) →
    (valoresAsignados b g).length = g.length := by
  intro g
  induction g with
  | nil => intro _; rfl
  | cons i rest ih =>
    intro hall
    cases hv : (getCell b i).valor with
    | none => exact absurd hv (hall i (List.mem_cons_self i rest))
    | some v =>
      rw [show valoresAsignados b (i :: rest) = v :: valoresAsignados b rest by
        simp [valoresAsignados, List.filterMap_cons, hv]]
      rw [List.length_cons, List.length_cons,
        ih (fun x hx => hall x (List.mem_cons_of_mem i hx))]

/-- The value scan of `Grupo.verificar`: success means no empty cell and a
running total emptied by erasing the assigned values in order. -/
theorem grupoVerificarAux_iff (b : Tablero) : ∀ (l total : List Nat),
    grupoVerificarAux b l total = true ↔
      (∀ i ∈ l, (getCell b i).valor ≠ none) ∧
      total.diff (valoresAsignados b l) = [] := by
  intro l
  induction l with
  | nil =>
    intro total
    simp [grupoVerificarAux, valoresAsignados, List.diff_nil, List.isEmpty_iff]
  | cons i rest ih =>
    intro total
    cases hv : (getCell b i).valor with
    | none =>
      rw [show grupoVerificarAux b (i :: rest) total = false by
        simp [grupoVerificarAux, hv]]
      simp only [Bool.false_eq_true, false_iff]
      intro ⟨hall, _⟩
      exact hall i (List.mem_cons_self i rest) hv
    | some v =>
      rw [show grupoVerificarAux b (i :: rest) total =
          grupoVerificarAux b rest (total.erase v) by simp [grupoVerificarAux, hv]]
      rw [show valoresAsignados b (i :: rest) = v :: valoresAsignados b rest by
        simp [valoresAsignados, List.filterMap_cons, hv]]
      rw [ih (total.erase v), List.diff_cons]
      constructor
      · intro ⟨hall, hdiff⟩
        refine ⟨?_, hdiff⟩
        intro x hx
        rcases List.mem_cons.mp hx with h | h
        · subst h; rw [hv]; simp
        · exact hall x h
      · intro ⟨hall, hdiff⟩
        exact ⟨fun x hx => hall x (List.mem_cons_of_mem i hx), hdiff⟩

/-- `Grupo.verificar` holds exactly when the group has no empty cell and its
assigned values are a permutation of `1..N`. -/
theorem grupoVerificar_iff (N : Nat) (b : Tablero) (g : List Nat)
    (hg : List.length g = N) :
    grupoVerificar N b g = true ↔
      (∀ i ∈ g, (getCell b i).valor ≠ none) ∧
      (valoresAsignados b g).Perm (List.range' 1 N) := by
  rw [grupoVerificar, grupoVerificarAux_iff]
  constructor
  · intro ⟨hall, hdiff⟩
    refine ⟨hall, ?_⟩
    have hz : ((List.range' 1 N : List Nat) : Multiset Nat) -
        (valoresAsignados b g : Multiset Nat) = 0 := by
      rw [Multiset.coe_sub, hdiff]
      rfl
    have hle := tsub_eq_zero_iff_le.mp hz
    have hcard : Multiset.card ((valoresAsignados b g : List Nat) : Multiset Nat) ≤
        Multiset.card ((List.range' 1 N : List Nat) : Multiset Nat) := by
      rw [Multiset.coe_card, Multiset.coe_card, valoresAsignados_length b g hall]
      simp [hg]
    exact (Multiset.coe_eq_coe.mp (Multiset.eq_of_le_of_card_le hle hcard)).symm
  · intro ⟨hall, hperm⟩
    refine ⟨hall, ?_⟩
    have hz : ((List.range' 1 N : List Nat) : Multiset Nat) =
        (valoresAsignados b g : Multiset Nat) :=
      Multiset.coe_eq_coe.mpr hperm.symm
    have : ((List.range' 1 N : List Nat) : Multiset Nat) -
        (valoresAsignados b g : Multiset Nat) = 0 := by
      rw [hz]
      simp
    rw [Multiset.coe_sub] at this
    exact (Multiset.coe_eq_zero _).mp this

/-- C3: `Tablero.verificar` holds exactly when every row, column and box
group carries each value `1..N` in exactly one cell — no cell empty, no
value repeated (the assigned values being a permutation of `1..N`) — and in
particular it implies the board is complete. -/
theorem C3_verificar (N : Nat) (b : Tablero) (hN : 0 < N)
    (hg : ∀ g ∈ gruposAll N, List.length g = N) :
    (verificar N b = true ↔ ∀ g ∈ gruposAll N,
        (∀ i ∈ g, (getCell b i).valor ≠ none) ∧
        (valoresAsignados b g).Perm (List.range' 1 N)) ∧
    (verificar N b = true → completo N b = true) := by
  have hmain : verificar N b = true ↔ ∀ g ∈ gruposAll N,
      (∀ i ∈ g, (getCell b i).valor ≠ none) ∧
      (valoresAsignados b g).Perm (List.range' 1 N) := by
    rw [verificar, List.all_eq_true]
    constructor
    · intro h g hgm
      exact (grupoVerificar_iff N b g (hg g hgm)).mp (h g hgm)
    · intro h g hgm
      exact (grupoVerificar_iff N b g (hg g hgm)).mpr (h g hgm)
  refine ⟨hmain, ?_⟩
  intro hver
  have hall := hmain.mp hver
  rw [completo, List.all_eq_true]
  intro i hi
  have hilt : i < N * N := List.mem_range.mp hi
  have hrow : filaIdx N (i / N) ∈ gruposAll N := by
    rw [gruposAll]
    refine List.mem_append.mpr (Or.inl (List.mem_append.mpr (Or.inl ?_)))
    refine List.mem_map.mpr ⟨i / N, List.mem_range.mpr ?_, rfl⟩
    exact Nat.div_lt_of_lt_mul (by omega)
  have hmem : i ∈ filaIdx N (i / N) := by
    rw [filaIdx]
    refine List.mem_map.mpr ⟨i % N, List.mem_range.mpr (Nat.mod_lt i hN), ?_⟩
    show i / N * N + i % N = i
    rw [Nat.mul_comm]
    exact Nat.div_add_mod i N
  have := (hall _ hrow).1 i hmem
  cases hv : (getCell b i).valor with
  | none => exact absurd hv this
  | some v => simp [vacia, hv]

/-! ### Claim C8: the logger flag cannot influence solving

The logger flag `lg` (and the `original` argument it leaks into) is stored
in cells but never read by any decision; two boards agreeing on the
solving-relevant projection `vp` (values and candidate lists) evolve
identically under every operation, whatever the flags. -/

theorem vp_length (b b' : Tablero) (h : vp b = vp b') :
    List.length b = List.length b' := by
  have := congrArg List.length h
  simpa [vp] using this

theorem getElem?_eq_some_getCell (b : List Celda) (i : Nat) (h : i < List.length b) :
    b[i]? = some (getCell b i) := by
  rw [getCell, List.getD_eq_getElem?_getD, List.getElem?_eq_getElem h]
  rfl

theorem vp_getCell (b b' : Tablero) (h : vp b = vp b') (i : Nat) :
    (getCell b i).valor = (getCell b' i).valor ∧
    (getCell b i).posible = (getCell b' i).posible := by
  have hlen := vp_length b b' h
  by_cases hi : i < List.length b
  · have h1 := congrArg (fun l : List (Option Nat × List Nat) => l[i]?) h
    simp only [vp, List.getElem?_map] at h1
    rw [getElem?_eq_some_getCell b i hi, getElem?_eq_some_getCell b' i (by omega)] at h1
    simp only [Option.map_some'] at h1
    have h2 := Option.some.inj h1
    exact ⟨congrArg Prod.fst h2, congrArg Prod.snd h2⟩
  · rw [getCell_oob b i (by omega), getCell_oob b' i (by omega)]
    exact ⟨rfl, rfl⟩

theorem vp_vacia (b b' : Tablero) (h : vp b = vp b') (i : Nat) :
    vacia (getCell b i) = vacia (getCell b' i) := by
  rw [vacia, vacia, (vp_getCell b b' h i).1]

theorem vp_setCell (b b' : Tablero) (h : vp b = vp b') (i : Nat) (c c' : Celda)
    (hv : c.valor = c'.valor) (hp : c.posible = c'.posible) :
    vp (setCell b i c) = vp (setCell b' i c') := by
  show (List.set b i c).map _ = (List.set b' i c').map _
  rw [List.map_set, List.map_set]
  have h' : List.map (fun c => (c.valor, c.posible)) b =
      List.map (fun c => (c.valor, c.posible)) b' := h
  rw [h', hv, hp]

/-- `gqGo` respects `vp` as soon as the `Celda.quitar` it is given does. -/
theorem gqGo_vp (cq cq' : Nat → Nat → Bool → Tablero → Tablero × Bool)
    (hcq : ∀ i v (lg lg' : Bool) b b', vp b = vp b' →
       vp (cq i v lg b).1 = vp (cq' i v lg' b').1 ∧
       (cq i v lg b).2 = (cq' i v lg' b').2) :
    ∀ (l : List Nat) (idx v : Nat) (lg lg' : Bool) (b b' : Tablero), vp b = vp b' →
       vp (gqGo cq l idx v lg b).1 = vp (gqGo cq' l idx v lg' b').1 ∧
       (gqGo cq l idx v lg b).2 = (gqGo cq' l idx v lg' b').2 := by
  intro l
  induction l with
  | nil => intro idx v lg lg' b b' h; exact ⟨h, rfl⟩
  | cons i rest ih =>
    intro idx v lg lg' b b' h
    have hvac := vp_vacia b b' h i
    simp only [gqGo]
    by_cases hc : i ≠ idx ∧ vacia (getCell b i) = true
    · have hc' : i ≠ idx ∧ vacia (getCell b' i) = true := ⟨hc.1, by rw [← hvac]; exact hc.2⟩
      rw [if_pos hc, if_pos hc']
      obtain ⟨h1, h2⟩ := hcq i v lg lg' b b' h
      by_cases hr : (cq i v lg b).2 = true
      · rw [if_pos hr, if_pos (by rw [← h2]; exact hr)]
        exact ih idx v lg lg' _ _ h1
      · rw [if_neg hr, if_neg (by rw [← h2]; exact hr)]
        exact ⟨h1, rfl⟩
    · have hc' : ¬(i ≠ idx ∧ vacia (getCell b' i) = true) := by rw [← hvac]; exact hc
      rw [if_neg hc, if_neg hc']
      exact ih idx v lg lg' b b' h

/-- The elimination cascade respects `vp` at every fuel level, for any
values of the `original` and logger flags. -/
theorem trioVp (N : Nat) : ∀ f : Nat,
    (∀ (idx v : Nat) (o o' lg lg' : Bool) (b b' : Tablero), vp b = vp b' →
       vp (setvalorF N f idx v o lg b).1 = vp (setvalorF N f idx v o' lg' b').1 ∧
       (setvalorF N f idx v o lg b).2 = (setvalorF N f idx v o' lg' b').2) ∧
    (∀ (l : List Nat) (idx v : Nat) (lg lg' : Bool) (b b' : Tablero), vp b = vp b' →
       vp (grupoQuitarF N f l idx v lg b).1 = vp (grupoQuitarF N f l idx v lg' b').1 ∧
       (grupoQuitarF N f l idx v lg b).2 = (grupoQuitarF N f l idx v lg' b').2) ∧
    (∀ (i v : Nat) (lg lg' : Bool) (b b' : Tablero), vp b = vp b' →
       vp (celdaQuitarF N f i v lg b).1 = vp (celdaQuitarF N f i v lg' b').1 ∧
       (celdaQuitarF N f i v lg b).2 = (celdaQuitarF N f i v lg' b').2) := by
  intro f
  induction f with
  | zero =>
    refine ⟨?_, ?_, ?_⟩
    · intro idx v o o' lg lg' b b' h
      exact ⟨h, rfl⟩
    · intro l idx v lg lg' b b' h
      rw [grupoQuitarF_gqGo, grupoQuitarF_gqGo]
      refine gqGo_vp _ _ ?_ l idx v lg lg' b b' h
      intro i v lg lg' b b' h
      exact ⟨h, rfl⟩
    · intro i v lg lg' b b' h
      exact ⟨h, rfl⟩
  | succ f ih =>
    obtain ⟨ihsv, ihgq, ihcq⟩ := ih
    have hcq : ∀ (i v : Nat) (lg lg' : Bool) (b b' : Tablero), vp b = vp b' →
        vp (celdaQuitarF N (f + 1) i v lg b).1 = vp (celdaQuitarF N (f + 1) i v lg' b').1 ∧
        (celdaQuitarF N (f + 1) i v lg b).2 = (celdaQuitarF N (f + 1) i v lg' b').2 := by
      intro i v lg lg' b b' h
      obtain ⟨hval, hpos⟩ := vp_getCell b b' h i
      have hvac := vp_vacia b b' h i
      by_cases hc : vacia (getCell b i) = true ∧ v ∈ (getCell b i).posible
      · have hc' : vacia (getCell b' i) = true ∧ v ∈ (getCell b' i).posible :=
          ⟨by rw [← hvac]; exact hc.1, by rw [← hpos]; exact hc.2⟩
        have hsetvp : vp (setCell b i { getCell b i with posible := (getCell b i).posible.erase v }) =
            vp (setCell b' i { getCell b' i with posible := (getCell b' i).posible.erase v }) :=
          vp_setCell b b' h i _ _ hval (by rw [hpos])
        rcases hps : (getCell b i).posible.erase v with _ | ⟨w, ws⟩
        · have hps' : (getCell b' i).posible.erase v = [] := by rw [← hpos]; exact hps
          rw [celdaQuitarF_many N f i v lg b hc (by rw [hps]; intro w hw; cases hw),
            celdaQuitarF_many N f i v lg' b' hc' (by rw [hps']; intro w hw; cases hw)]
          exact ⟨hsetvp, by rw [hps, hps']⟩
        · cases ws with
          | nil =>
            have hps' : (getCell b' i).posible.erase v = [w] := by rw [← hpos]; exact hps
            rw [celdaQuitarF_one N f i v lg b w hc hps,
              celdaQuitarF_one N f i v lg' b' w hc' hps']
            exact ihsv i w lg lg' false false _ _ hsetvp
          | cons w2 tl =>
            have hps' : (getCell b' i).posible.erase v = w :: w2 :: tl := by
              rw [← hpos]; exact hps
            rw [celdaQuitarF_many N f i v lg b hc (by rw [hps]; intro x hx; cases hx),
              celdaQuitarF_many N f i v lg' b' hc' (by rw [hps']; intro x hx; cases hx)]
            exact ⟨hsetvp, by rw [hps, hps']⟩
      · have hc' : ¬(vacia (getCell b' i) = true ∧ v ∈ (getCell b' i).posible) := by
          rw [← hvac, ← hpos]; exact hc
        rw [celdaQuitarF_neg N f i v lg b hc, celdaQuitarF_neg N f i v lg' b' hc']
        exact ⟨h, by rw [hpos]⟩
    have hgq : ∀ (l : List Nat) (idx v : Nat) (lg lg' : Bool) (b b' : Tablero), vp b = vp b' →
        vp (grupoQuitarF N (f + 1) l idx v lg b).1 = vp (grupoQuitarF N (f + 1) l idx v lg' b').1 ∧
        (grupoQuitarF N (f + 1) l idx v lg b).2 = (grupoQuitarF N (f + 1) l idx v lg' b').2 := by
      intro l idx v lg lg' b b' h
      rw [grupoQuitarF_gqGo, grupoQuitarF_gqGo]
      refine gqGo_vp _ _ ?_ l idx v lg lg' b b' h
      intro i v lg lg' b b' h
      exact hcq i v lg lg' b b' h
    refine ⟨?_, hgq, hcq⟩
    intro idx v o o' lg lg' b b' h
    obtain ⟨hval, hpos⟩ := vp_getCell b b' h idx
    by_cases hm : v ∈ (getCell b idx).posible
    · have hm' : v ∈ (getCell b' idx).posible := by rw [← hpos]; exact hm
      rw [setvalorF_pos N f idx v o lg b hm, setvalorF_pos N f idx v o' lg' b' hm']
      have e1 : vp (setCell b idx { valor := some v, posible := [v], original := o }) =
          vp (setCell b' idx { valor := some v, posible := [v], original := o' }) :=
        vp_setCell b b' h idx _ _ rfl rfl
      have e2 := (ihgq (filaIdx N (idx / N)) idx v lg lg' _ _ e1).1
      have e3 := (ihgq (colIdx N (idx % N)) idx v lg lg' _ _ e2).1
      have e4 := (ihgq (cuadroIdx N (boxOf N idx)) idx v lg lg' _ _ e3).1
      exact ⟨e4, rfl⟩
    · have hm' : v ∉ (getCell b' idx).posible := by rw [← hpos]; exact hm
      rw [setvalorF_neg N f idx v o lg b hm, setvalorF_neg N f idx v o' lg' b' hm']
      exact ⟨h, rfl⟩

/-- C3 at a concrete input: a solved 4-by-4 board passes `verificar` and is
complete. -/
theorem C3_verificar_witness :
    completo 4 [cc 1, cc 2, cc 3, cc 4, cc 3, cc 4, cc 1, cc 2,
      cc 2, cc 1, cc 4, cc 3, cc 4, cc 3, cc 2, cc 1] = true :=
  (C3_verificar 4 [cc 1, cc 2, cc 3, cc 4, cc 3, cc 4, cc 1, cc 2,
      cc 2, cc 1, cc 4, cc 3, cc 4, cc 3, cc 2, cc 1] (by decide) (by decide)).2
    (by decide)

/-! #### The logger flag through the wrappers and the revision pipeline -/

theorem medida_vp (b b' : Tablero) (h : vp b = vp b') : medida b = medida b' := by
  rw [medida, medida]
  have h2 := congrArg (List.map (fun p : Option Nat × List Nat => p.2.length)) h
  simp only [vp, List.map_map] at h2
  exact congrArg List.sum h2

theorem setvalor_vp (N idx v : Nat) (o o' lg lg' : Bool) (b b' : Tablero)
    (h : vp b = vp b') :
    vp (setvalor N idx v o lg b).1 = vp (setvalor N idx v o' lg' b').1 ∧
    (setvalor N idx v o lg b).2 = (setvalor N idx v o' lg' b').2 := by
  rw [setvalor, setvalor, medida_vp b b' h]
  exact (trioVp N (2 * medida b' + 2)).1 idx v o o' lg lg' b b' h

theorem celdaQuitar_vp (N i v : Nat) (lg lg' : Bool) (b b' : Tablero)
    (h : vp b = vp b') :
    vp (celdaQuitar N i v lg b).1 = vp (celdaQuitar N i v lg' b').1 ∧
    (celdaQuitar N i v lg b).2 = (celdaQuitar N i v lg' b').2 := by
  rw [celdaQuitar, celdaQuitar, medida_vp b b' h]
  exact (trioVp N (2 * medida b' + 2)).2.2 i v lg lg' b b' h

theorem incluyeC_vp (b b' : Tablero) (h : vp b = vp b') (i : Nat) (comb : List Nat) :
    incluyeC (getCell b i) comb = incluyeC (getCell b' i) comb := by
  rw [incluyeC, incluyeC, (vp_getCell b b' h i).2]

theorem grupoIncluye_vp (b b' : Tablero) (h : vp b = vp b') (g comb : List Nat) :
    grupoIncluye b g comb = grupoIncluye b' g comb := by
  rw [grupoIncluye, grupoIncluye]
  have : (fun i => if incluyeC (getCell b i) comb then (1 : Nat) else 0) =
      (fun i => if incluyeC (getCell b' i) comb then (1 : Nat) else 0) :=
    funext fun i => by rw [incluyeC_vp b b' h i comb]
  rw [this]

theorem grupoIncluyeUnit_vp (b b' : Tablero) (h : vp b = vp b') (g comb : List Nat) :
    grupoIncluyeUnit b g comb = grupoIncluyeUnit b' g comb := by
  rw [grupoIncluyeUnit, grupoIncluyeUnit]
  have : (fun i => (comb.map (fun e =>
        if incluyeC (getCell b i) [e] && !incluyeC (getCell b i) comb then (1 : Nat)
        else 0)).sum) =
      (fun i => (comb.map (fun e =>
        if incluyeC (getCell b' i) [e] && !incluyeC (getCell b' i) comb then (1 : Nat)
        else 0)).sum) :=
    funext fun i => by
      have : (fun e => if incluyeC (getCell b i) [e] && !incluyeC (getCell b i) comb
            then (1 : Nat) else 0) =
          (fun e => if incluyeC (getCell b' i) [e] && !incluyeC (getCell b' i) comb
            then (1 : Nat) else 0) :=
        funext fun e => by rw [incluyeC_vp b b' h i [e], incluyeC_vp b b' h i comb]
      rw [this]
  rw [this]

theorem asignarCelda_vp (N : Nat) (lg lg' : Bool) (i : Nat) :
    ∀ (resto : List Nat) (b b' : Tablero), vp b = vp b' →
    vp (asignarCelda N lg i resto b).1 = vp (asignarCelda N lg' i resto b').1 ∧
    (asignarCelda N lg i resto b).2 = (asignarCelda N lg' i resto b').2 := by
  intro resto
  induction resto with
  | nil => intro b b' h; exact ⟨h, rfl⟩
  | cons v rest ih =>
    intro b b' h
    obtain ⟨h1, h2⟩ := celdaQuitar_vp N i v lg lg' b b' h
    obtain ⟨h3, h4⟩ := ih _ _ h1
    simp only [asignarCelda]
    exact ⟨h3, by rw [h2, h4]⟩

theorem asignarAux_vp (N : Nat) (lg lg' : Bool) (comb resto : List Nat) :
    ∀ (l : List Nat) (b b' : Tablero), vp b = vp b' →
    vp (asignarAux N lg comb resto l b).1 = vp (asignarAux N lg' comb resto l b').1 ∧
    (asignarAux N lg comb resto l b).2 = (asignarAux N lg' comb resto l b').2 := by
  intro l
  induction l with
  | nil => intro b b' h; exact ⟨h, rfl⟩
  | cons i rest ih =>
    intro b b' h
    simp only [asignarAux]
    rw [show (vacia (getCell b' i) && incluyeC (getCell b' i) comb) =
        (vacia (getCell b i) && incluyeC (getCell b i) comb) by
      rw [vp_vacia b b' h i, incluyeC_vp b b' h i comb]]
    by_cases hc : (vacia (getCell b i) && incluyeC (getCell b i) comb) = true
    · rw [if_pos hc, if_pos hc]
      obtain ⟨h1, h2⟩ := asignarCelda_vp N lg lg' i resto b b' h
      obtain ⟨h3, h4⟩ := ih _ _ h1
      exact ⟨h3, by rw [h2, h4]⟩
    · rw [if_neg hc, if_neg hc]
      exact ih b b' h

theorem asignar_vp (N : Nat) (lg lg' : Bool) (g comb : List Nat) (b b' : Tablero)
    (h : vp b = vp b') :
    vp (asignar N lg g comb b).1 = vp (asignar N lg' g comb b').1 ∧
    (asignar N lg g comb b).2 = (asignar N lg' g comb b').2 :=
  asignarAux_vp N lg lg' comb _ g b b' h

theorem nsInner_vp (N : Nat) (lg lg' : Bool) (g : List Nat) (i : Nat) :
    ∀ (vs : List Nat) (b b' : Tablero), vp b = vp b' →
    vp (nsInner N lg g i vs b).1 = vp (nsInner N lg' g i vs b').1 ∧
    (nsInner N lg g i vs b).2 = (nsInner N lg' g i vs b').2 := by
  intro vs
  induction vs with
  | nil => intro b b' h; exact ⟨h, rfl⟩
  | cons v rest ih =>
    intro b b' h
    simp only [nsInner]
    rw [show (grupoIncluye b' g [v] == 1) = (grupoIncluye b g [v] == 1) by
      rw [grupoIncluye_vp b b' h g [v]]]
    by_cases hc : (grupoIncluye b g [v] == 1) = true
    · rw [if_pos hc, if_pos hc]
      obtain ⟨h1, h2⟩ := setvalor_vp N i v lg lg' false false b b' h
      obtain ⟨h3, h4⟩ := ih _ _ h1
      exact ⟨h3, by rw [h4]⟩
    · rw [if_neg hc, if_neg hc]
      exact ih b b' h

theorem nsOuter_vp (N : Nat) (lg lg' : Bool) (g : List Nat) :
    ∀ (l : List Nat) (b b' : Tablero), vp b = vp b' →
    vp (nsOuter N lg g l b).1 = vp (nsOuter N lg' g l b').1 ∧
    (nsOuter N lg g l b).2 = (nsOuter N lg' g l b').2 := by
  intro l
  induction l with
  | nil => intro b b' h; exact ⟨h, rfl⟩
  | cons i rest ih =>
    intro b b' h
    simp only [nsOuter]
    rw [show vacia (getCell b' i) = vacia (getCell b i) from (vp_vacia b b' h i).symm]
    by_cases hc : vacia (getCell b i) = true
    · rw [if_pos hc, if_pos hc]
      rw [show (getCell b' i).posible = (getCell b i).posible from
        (vp_getCell b b' h i).2.symm]
      obtain ⟨h1, h2⟩ := nsInner_vp N lg lg' g i (getCell b i).posible b b' h
      obtain ⟨h3, h4⟩ := ih _ _ h1
      exact ⟨h3, by rw [h2, h4]⟩
    · rw [if_neg hc, if_neg hc]
      exact ih b b' h

theorem combLoop_vp (N : Nat) (lg lg' : Bool) (g : List Nat) (largo : Nat) :
    ∀ (cs : List (List Nat)) (b b' : Tablero), vp b = vp b' →
    vp (combLoop N lg g largo cs b).1 = vp (combLoop N lg' g largo cs b').1 ∧
    (combLoop N lg g largo cs b).2 = (combLoop N lg' g largo cs b').2 := by
  intro cs
  induction cs with
  | nil => intro b b' h; exact ⟨h, rfl⟩
  | cons comb rest ih =>
    intro b b' h
    simp only [combLoop]
    rw [show grupoIncluye b' g comb = grupoIncluye b g comb from
      (grupoIncluye_vp b b' h g comb).symm]
    by_cases hc : (grupoIncluye b g comb == largo && largo == comb.length) = true
    · rw [if_pos hc, if_pos hc]
      rw [show grupoIncluyeUnit b' g comb = grupoIncluyeUnit b g comb from
        (grupoIncluyeUnit_vp b b' h g comb).symm]
      by_cases hu : (grupoIncluyeUnit b g comb == 0) = true
      · rw [if_pos hu, if_pos hu]
        obtain ⟨h1, h2⟩ := asignar_vp N lg lg' g comb b b' h
        obtain ⟨h3, h4⟩ := ih _ _ h1
        exact ⟨h3, by rw [h2, h4]⟩
      · rw [if_neg hu, if_neg hu]
        exact ih b b' h
    · rw [if_neg hc, if_neg hc]
      exact ih b b' h

theorem largoLoop_vp (N : Nat) (lg lg' : Bool) (g : List Nat) (i : Nat) :
    ∀ (ls : List Nat) (b b' : Tablero), vp b = vp b' →
    vp (largoLoop N lg g i ls b).1 = vp (largoLoop N lg' g i ls b').1 ∧
    (largoLoop N lg g i ls b).2 = (largoLoop N lg' g i ls b').2 := by
  intro ls
  induction ls with
  | nil => intro b b' h; exact ⟨h, rfl⟩
  | cons largo rest ih =>
    intro b b' h
    simp only [largoLoop]
    rw [show (getCell b' i).posible = (getCell b i).posible from
      (vp_getCell b b' h i).2.symm]
    obtain ⟨h1, h2⟩ := combLoop_vp N lg lg' g largo
      (combinaciones largo (getCell b i).posible) b b' h
    obtain ⟨h3, h4⟩ := ih _ _ h1
    exact ⟨h3, by rw [h2, h4]⟩

theorem subsetOuter_vp (N : Nat) (lg lg' : Bool) (g : List Nat) :
    ∀ (l : List Nat) (b b' : Tablero), vp b = vp b' →
    vp (subsetOuter N lg g l b).1 = vp (subsetOuter N lg' g l b').1 ∧
    (subsetOuter N lg g l b).2 = (subsetOuter N lg' g l b').2 := by
  intro l
  induction l with
  | nil => intro b b' h; exact ⟨h, rfl⟩
  | cons i rest ih =>
    intro b b' h
    simp only [subsetOuter]
    rw [show (getCell b' i).posible = (getCell b i).posible from
      (vp_getCell b b' h i).2.symm]
    obtain ⟨h1, h2⟩ := largoLoop_vp N lg lg' g i
      (List.range' 1 ((getCell b i).posible.length - 1)) b b' h
    obtain ⟨h3, h4⟩ := ih _ _ h1
    exact ⟨h3, by rw [h2, h4]⟩

theorem grupoRevisar_vp (N : Nat) (lg lg' : Bool) (g : List Nat) (b b' : Tablero)
    (h : vp b = vp b') :
    vp (grupoRevisar N lg g b).1 = vp (grupoRevisar N lg' g b').1 ∧
    (grupoRevisar N lg g b).2 = (grupoRevisar N lg' g b').2 := by
  simp only [grupoRevisar]
  obtain ⟨h1, h2⟩ := nsOuter_vp N lg lg' g g b b' h
  obtain ⟨h3, h4⟩ := subsetOuter_vp N lg lg' g g _ _ h1
  exact ⟨h3, by rw [h2, h4]⟩

theorem pasada_vp (N : Nat) (lg lg' : Bool) :
    ∀ (gs : List (List Nat)) (b b' : Tablero), vp b = vp b' →
    vp (pasada N lg gs b).1 = vp (pasada N lg' gs b').1 ∧
    (pasada N lg gs b).2 = (pasada N lg' gs b').2 := by
  intro gs
  induction gs with
  | nil => intro b b' h; exact ⟨h, rfl⟩
  | cons g rest ih =>
    intro b b' h
    simp only [pasada]
    obtain ⟨h1, h2⟩ := grupoRevisar_vp N lg lg' g b b' h
    obtain ⟨h3, h4⟩ := ih _ _ h1
    exact ⟨h3, by rw [h2, h4]⟩

theorem revisarLoop_vp (N : Nat) (lg lg' : Bool) :
    ∀ (k : Nat) (b b' : Tablero) (tot : Nat), vp b = vp b' →
    vp (revisarLoop N lg k b tot).1 = vp (revisarLoop N lg' k b' tot).1 ∧
    (revisarLoop N lg k b tot).2 = (revisarLoop N lg' k b' tot).2 := by
  intro k
  induction k with
  | zero => intro b b' tot h; exact ⟨h, rfl⟩
  | succ n ih =>
    intro b b' tot h
    simp only [revisarLoop]
    obtain ⟨h1, h2⟩ := pasada_vp N lg lg' (gruposAll N) b b' h
    rw [show ((pasada N lg' (gruposAll N) b').2 == 0) = ((pasada N lg (gruposAll N) b).2 == 0)
      by rw [h2]]
    by_cases hz : ((pasada N lg (gruposAll N) b).2 == 0) = true
    · rw [if_pos hz, if_pos hz]
      exact ⟨h1, rfl⟩
    · rw [if_neg hz, if_neg hz]
      rw [show (pasada N lg' (gruposAll N) b').2 = (pasada N lg (gruposAll N) b).2 from h2.symm]
      exact ih _ _ _ h1

theorem revisar_vp (N : Nat) (lg lg' : Bool) (b b' : Tablero) (h : vp b = vp b') :
    vp (revisar N lg b).1 = vp (revisar N lg' b').1 ∧
    (revisar N lg b).2 = (revisar N lg' b').2 :=
  revisarLoop_vp N lg lg' LIMITE b b' 0 h

theorem cargarAux_vp (N : Nat) (lg lg' : Bool) (grid : List (List Nat)) :
    ∀ (l : List (Nat × Nat)) (b b' : Tablero), vp b = vp b' →
    vp (cargarAux N lg grid l b).1 = vp (cargarAux N lg' grid l b').1 ∧
    (cargarAux N lg grid l b).2 = (cargarAux N lg' grid l b').2 := by
  intro l
  induction l with
  | nil => intro b b' h; exact ⟨h, rfl⟩
  | cons p rest ih =>
    obtain ⟨i, j⟩ := p
    intro b b' h
    simp only [cargarAux]
    by_cases hv : (grid.getD i []).getD j 0 ≠ 0
    · rw [if_pos hv, if_pos hv]
      obtain ⟨h1, h2⟩ := setvalor_vp N (i * N + j) ((grid.getD i []).getD j 0)
        true true lg lg' b b' h
      rw [show (setvalor N (i * N + j) ((grid.getD i []).getD j 0) true lg' b').2 =
        (setvalor N (i * N + j) ((grid.getD i []).getD j 0) true lg b).2 from h2.symm]
      by_cases hr : (setvalor N (i * N + j) ((grid.getD i []).getD j 0) true lg b).2 = true
      · rw [if_pos hr, if_pos hr]
        exact ih _ _ h1
      · rw [if_neg hr, if_neg hr]
        exact ⟨h1, rfl⟩
    · rw [if_neg hv, if_neg hv]
      exact ih b b' h

theorem cargar_vp (N : Nat) (lg lg' : Bool) (grid : List (List Nat)) (b b' : Tablero)
    (h : vp b = vp b') :
    vp (cargar N lg grid b).1 = vp (cargar N lg' grid b').1 ∧
    (cargar N lg grid b).2 = (cargar N lg' grid b').2 :=
  cargarAux_vp N lg lg' grid (idxPairs N) b b' h

/-! #### The logger flag through the board-level checks and the search -/

theorem copiar_vp (N : Nat) (b b' : Tablero) (h : vp b = vp b') :
    copiar N b = copiar N b' := by
  rw [copiar, copiar]
  have : (fun i => ({ valor := (getCell b i).valor, posible := (getCell b i).posible, original := false } : Celda)) = (fun i => ({ valor := (getCell b' i).valor, posible := (getCell b' i).posible, original := false } : Celda)) :=
    funext fun i => by rw [(vp_getCell b b' h i).1, (vp_getCell b b' h i).2]
  rw [this]

theorem vp_replicar (N : Nat) (a src : Tablero) :
    vp (replicar N a src) =
      (List.range (N * N)).map (fun i => ((getCell src i).valor, (getCell src i).posible)) := by
  rw [replicar, vp, List.map_map]
  rfl

theorem replicar_vp (N : Nat) (a a' src src' : Tablero) (h : vp src = vp src') :
    vp (replicar N a src) = vp (replicar N a' src') := by
  rw [vp_replicar, vp_replicar]
  have : (fun i => ((getCell src i).valor, (getCell src i).posible)) =
      (fun i => ((getCell src' i).valor, (getCell src' i).posible)) :=
    funext fun i => by rw [(vp_getCell src src' h i).1, (vp_getCell src src' h i).2]
  rw [this]

theorem sinDupAux_vp (b b' : Tablero) (h : vp b = vp b') :
    ∀ (l : List Nat) (vistos : List Nat), sinDupAux b l vistos = sinDupAux b' l vistos := by
  intro l
  induction l with
  | nil => intro vistos; rfl
  | cons i rest ih =>
    intro vistos
    have hval := (vp_getCell b b' h i).1
    show (match (getCell b i).valor with
      | none => sinDupAux b rest vistos
      | some v => if v ∈ vistos then false else sinDupAux b rest (v :: vistos)) =
      (match (getCell b' i).valor with
      | none => sinDupAux b' rest vistos
      | some v => if v ∈ vistos then false else sinDupAux b' rest (v :: vistos))
    rw [← hval]
    cases (getCell b i).valor with
    | none => exact ih vistos
    | some v =>
      show (if v ∈ vistos then false else sinDupAux b rest (v :: vistos)) =
        (if v ∈ vistos then false else sinDupAux b' rest (v :: vistos))
      by_cases hm : v ∈ vistos
      · rw [if_pos hm, if_pos hm]
      · rw [if_neg hm, if_neg hm]
        exact ih (v :: vistos)

theorem valido_vp (N : Nat) (b b' : Tablero) (h : vp b = vp b') :
    valido N b = valido N b' := by
  rw [valido, valido]
  have e1 : (fun i => !(vacia (getCell b i) && (getCell b i).posible.isEmpty)) =
      (fun i => !(vacia (getCell b' i) && (getCell b' i).posible.isEmpty)) :=
    funext fun i => by rw [vp_vacia b b' h i, (vp_getCell b b' h i).2]
  have e2 : (fun g : List Nat => sinDupAux b g []) = (fun g => sinDupAux b' g []) :=
    funext fun g => sinDupAux_vp b b' h g []
  rw [e1, e2]

theorem grupoVerificarAux_vp (b b' : Tablero) (h : vp b = vp b') :
    ∀ (l : List Nat) (total : List Nat),
      grupoVerificarAux b l total = grupoVerificarAux b' l total := by
  intro l
  induction l with
  | nil => intro total; rfl
  | cons i rest ih =>
    intro total
    have hval := (vp_getCell b b' h i).1
    show (match (getCell b i).valor with
      | none => false
      | some v => grupoVerificarAux b rest (total.erase v)) =
      (match (getCell b' i).valor with
      | none => false
      | some v => grupoVerificarAux b' rest (total.erase v))
    rw [← hval]
    cases (getCell b i).valor with
    | none => rfl
    | some v => exact ih (total.erase v)

theorem verificar_vp (N : Nat) (b b' : Tablero) (h : vp b = vp b') :
    verificar N b = verificar N b' := by
  rw [verificar, verificar]
  have : (fun g => grupoVerificar N b g) = (fun g => grupoVerificar N b' g) :=
    funext fun g => grupoVerificarAux_vp b b' h g (List.range' 1 N)
  rw [this]

theorem mrvAux_vp (b b' : Tablero) (h : vp b = vp b') :
    ∀ (l : List Nat) (best : Option Nat) (m : Nat), mrvAux b l best m = mrvAux b' l best m := by
  intro l
  induction l with
  | nil => intro best m; rfl
  | cons i rest ih =>
    intro best m
    have hvac := vp_vacia b b' h i
    have hpos := (vp_getCell b b' h i).2
    simp only [mrvAux]
    by_cases hc : vacia (getCell b i) = true ∧ 0 < (getCell b i).posible.length ∧
        (getCell b i).posible.length < m
    · rw [if_pos hc, if_pos (by rw [← hvac, ← hpos]; exact hc)]
      rw [show (getCell b' i).posible.length = (getCell b i).posible.length by rw [hpos]]
      exact ih _ _
    · rw [if_neg hc, if_neg (by rw [← hvac, ← hpos]; exact hc)]
      exact ih best m

theorem mrvIndex_vp (N : Nat) (b b' : Tablero) (h : vp b = vp b') :
    mrvIndex N b = mrvIndex N b' := by
  rw [mrvIndex, mrvIndex, mrvAux_vp b b' h]

theorem countEmpty_vp (N : Nat) (b b' : Tablero) (h : vp b = vp b') :
    countEmpty N b = countEmpty N b' := by
  rw [countEmpty, countEmpty]
  have : (fun i => vacia (getCell b i)) = (fun i => vacia (getCell b' i)) :=
    funext fun i => vp_vacia b b' h i
  rw [this]

/-- The candidate loop of the search respects `vp` as soon as the recursive
solver it is given does. -/
theorem rlGo_vp (N : Nat) (rf rf' : Bool → Tablero → Option (Tablero × Nat))
    (hrf : ∀ (lg lg' : Bool) (b b' : Tablero), vp b = vp b' →
       Option.map (fun p => (vp p.1, p.2)) (rf lg b) =
       Option.map (fun p => (vp p.1, p.2)) (rf' lg' b')) :
    ∀ (vs : List Nat) (lg lg' : Bool) (b1 b1' : Tablero) (cambios idx : Nat),
       vp b1 = vp b1' →
       Option.map (fun p => (vp p.1, p.2)) (rlGo N rf lg b1 cambios idx vs) =
       Option.map (fun p => (vp p.1, p.2)) (rlGo N rf' lg' b1' cambios idx vs) := by
  intro vs
  induction vs with
  | nil =>
    intro lg lg' b1 b1' cambios idx h
    show some (vp b1, cambios) = some (vp b1', cambios)
    rw [h]
  | cons v rest ih =>
    intro lg lg' b1 b1' cambios idx h
    have hcop : copiar N b1 = copiar N b1' := copiar_vp N b1 b1' h
    obtain ⟨h1, h2⟩ := setvalor_vp N idx v lg lg' false false (copiar N b1) (copiar N b1')
      (by rw [hcop])
    simp only [rlGo]
    rw [show (setvalor N idx v lg' false (copiar N b1')).2 =
      (setvalor N idx v lg false (copiar N b1)).2 from h2.symm]
    by_cases hr : (setvalor N idx v lg false (copiar N b1)).2 = true
    · rw [if_pos hr, if_pos hr]
      have hm := hrf lg lg' _ _ h1
      cases hrl : rf lg (setvalor N idx v lg false (copiar N b1)).1 with
      | none =>
        rw [hrl] at hm
        cases hrl' : rf' lg' (setvalor N idx v lg' false (copiar N b1')).1 with
        | none => rfl
        | some p => rw [hrl'] at hm; cases hm
      | some p =>
        rw [hrl] at hm
        cases hrl' : rf' lg' (setvalor N idx v lg' false (copiar N b1')).1 with
        | none => rw [hrl'] at hm; cases hm
        | some p' =>
          rw [hrl'] at hm
          have hp := Option.some.inj hm
          obtain ⟨c2, res⟩ := p
          obtain ⟨c2', res'⟩ := p'
          have hv1 : vp c2 = vp c2' := congrArg Prod.fst hp
          have hv2 : res = res' := congrArg Prod.snd hp
          show Option.map _ (if verificar N c2 then _ else _) =
            Option.map _ (if verificar N c2' then _ else _)
          rw [show verificar N c2' = verificar N c2 from (verificar_vp N c2 c2' hv1).symm]
          by_cases hver : verificar N c2 = true
          · rw [if_pos hver, if_pos hver]
            show some (vp (replicar N b1 c2), cambios + res) =
              some (vp (replicar N b1' c2'), cambios + res')
            rw [replicar_vp N b1 b1' c2 c2' hv1, hv2]
          · rw [if_neg hver, if_neg hver]
            exact ih lg lg' b1 b1' cambios idx h
    · rw [if_neg hr, if_neg hr]
      exact ih lg lg' b1 b1' cambios idx h

/-- The whole recursive search respects `vp` at every fuel level: the same
success/failure shape, the same change counts, the same values and
candidate lists — whatever the logger flag. -/
theorem busqVp (N : Nat) : ∀ f : Nat,
    (∀ (lg lg' : Bool) (b b' : Tablero), vp b = vp b' →
       Option.map (fun p => (vp p.1, p.2)) (resolverF N f lg b) =
       Option.map (fun p => (vp p.1, p.2)) (resolverF N f lg' b')) ∧
    (∀ (vs : List Nat) (lg lg' : Bool) (b1 b1' : Tablero) (cambios idx : Nat),
       vp b1 = vp b1' →
       Option.map (fun p => (vp p.1, p.2)) (resolverLoop N f lg b1 cambios idx vs) =
       Option.map (fun p => (vp p.1, p.2)) (resolverLoop N f lg' b1' cambios idx vs)) := by
  intro f
  induction f with
  | zero =>
    constructor
    · intro lg lg' b b' h
      rfl
    · intro vs lg lg' b1 b1' cambios idx h
      rw [resolverLoop_rlGo, resolverLoop_rlGo]
      exact rlGo_vp N _ _ (fun lg lg' b b' h => rfl) vs lg lg' b1 b1' cambios idx h
  | succ f ih =>
    obtain ⟨ihrf, ihrl⟩ := ih
    have hrf : ∀ (lg lg' : Bool) (b b' : Tablero), vp b = vp b' →
        Option.map (fun p => (vp p.1, p.2)) (resolverF N (f + 1) lg b) =
        Option.map (fun p => (vp p.1, p.2)) (resolverF N (f + 1) lg' b') := by
      intro lg lg' b b' h
      by_cases hval : valido N b = true
      · have hval' : valido N b' = true := by rw [← valido_vp N b b' h]; exact hval
        obtain ⟨hrev1, hrev2⟩ := revisar_vp N lg lg' b b' h
        by_cases hver : verificar N (revisar N lg b).1 = true
        · have hver' : verificar N (revisar N lg' b').1 = true := by
            rw [← verificar_vp N _ _ hrev1]; exact hver
          rw [resolverF_solved N f lg b hval hver, resolverF_solved N f lg' b' hval' hver']
          show some (vp (revisar N lg b).1, (revisar N lg b).2) = _
          rw [hrev1, hrev2]
          rfl
        · have hver' : ¬ verificar N (revisar N lg' b').1 = true := by
            rw [← verificar_vp N _ _ hrev1]; exact hver
          rw [Bool.not_eq_true] at hver hver'
          have hmrv : mrvIndex N (revisar N lg b).1 = mrvIndex N (revisar N lg' b').1 :=
            mrvIndex_vp N _ _ hrev1
          cases hm : mrvIndex N (revisar N lg b).1 with
          | none =>
            rw [resolverF_crash N f lg b hval hver hm,
              resolverF_crash N f lg' b' hval' hver' (by rw [← hmrv]; exact hm)]
          | some idx =>
            rw [resolverF_rec N f lg b idx hval hver hm,
              resolverF_rec N f lg' b' idx hval' hver' (by rw [← hmrv]; exact hm)]
            rw [show (getCell (revisar N lg' b').1 idx).posible =
              (getCell (revisar N lg b).1 idx).posible from
              ((vp_getCell _ _ hrev1 idx).2).symm]
            rw [show (revisar N lg' b').2 = (revisar N lg b).2 from hrev2.symm]
            exact ihrl _ lg lg' _ _ _ idx hrev1
      · have hval' : ¬ valido N b' = true := by rw [← valido_vp N b b' h]; exact hval
        rw [Bool.not_eq_true] at hval hval'
        rw [resolverF_invalid N f lg b hval, resolverF_invalid N f lg' b' hval']
        show some (vp b, 0) = some (vp b', 0)
        rw [h]
    refine ⟨hrf, ?_⟩
    intro vs lg lg' b1 b1' cambios idx h
    rw [resolverLoop_rlGo, resolverLoop_rlGo]
    refine rlGo_vp N _ _ ?_ vs lg lg' b1 b1' cambios idx h
    intro lg lg' b b' h
    exact hrf lg lg' b b' h

theorem resolver_vp (N : Nat) (lg lg' : Bool) (b b' : Tablero) (h : vp b = vp b') :
    Option.map (fun p => (vp p.1, p.2)) (resolver N lg b) =
    Option.map (fun p => (vp p.1, p.2)) (resolver N lg' b') := by
  rw [resolver, resolver, countEmpty_vp N b b' h]
  exact (busqVp N (countEmpty N b' + 1)).1 lg lg' b b' h

/-- C8: running load-then-solve with a logger attached and with no logger
produces identical solving outcomes: the same load result, the same success
shape and change count of `resolver`, and the same value and candidate list
in every cell. (The presentation-only given-flags can differ, because the
source leaks the logger argument into `original` at three call sites.) -/
theorem C8_logger (N : Nat) (grid : List (List Nat)) :
    (cargar N true grid (nuevoTablero N)).2 = (cargar N false grid (nuevoTablero N)).2 ∧
    vp (cargar N true grid (nuevoTablero N)).1 =
      vp (cargar N false grid (nuevoTablero N)).1 ∧
    Option.map (fun p => (vp p.1, p.2))
        (resolver N true (cargar N true grid (nuevoTablero N)).1) =
      Option.map (fun p => (vp p.1, p.2))
        (resolver N false (cargar N false grid (nuevoTablero N)).1) := by
  obtain ⟨h1, h2⟩ := cargar_vp N true false grid (nuevoTablero N) (nuevoTablero N) rfl
  exact ⟨h2, h1, resolver_vp N true false _ _ h1⟩

/-! ### Claim C1: the search step

Candidate lists start as the ascending `[1..N]` and only ever shrink by
`List.erase` or collapse to a committed singleton, so they stay strictly
sorted; the claim's "tries the candidates in ascending order" is the code's
"tries them in list order" on a sorted list. -/

theorem sorted_setCell (b : Tablero) (i : Nat) (c : Celda)
    (hb : ∀ j, List.Pairwise (· < ·) (getCell b j).posible)
    (hc : List.Pairwise (· < ·) c.posible) :
    ∀ j, List.Pairwise (· < ·) (getCell (setCell b i c) j).posible := by
  intro j
  by_cases hij : j = i
  · subst hij
    by_cases hlen : j < List.length b
    · rw [getCell_setCell_self b j c hlen]
      exact hc
    · rw [show setCell b j c = b from List.set_eq_of_length_le (by omega)]
      exact hb j
  · rw [getCell_setCell_ne b i j c (fun he => hij he.symm)]
    exact hb j

theorem gqGo_sorted (cq : Nat → Nat → Bool → Tablero → Tablero × Bool)
    (hcq : ∀ i v lg b, (∀ j, List.Pairwise (· < ·) (getCell b j).posible) →
       ∀ j, List.Pairwise (· < ·) (getCell (cq i v lg b).1 j).posible) :
    ∀ (l : List Nat) (idx v : Nat) (lg : Bool) (b : Tablero),
       (∀ j, List.Pairwise (· < ·) (getCell b j).posible) →
       ∀ j, List.Pairwise (· < ·) (getCell (gqGo cq l idx v lg b).1 j).posible := by
  intro l
  induction l with
  | nil => intro idx v lg b hb; exact hb
  | cons i rest ih =>
    intro idx v lg b hb
    simp only [gqGo]
    by_cases hc : i ≠ idx ∧ vacia (getCell b i) = true
    · rw [if_pos hc]
      by_cases hr : (cq i v lg b).2 = true
      · rw [if_pos hr]
        exact ih idx v lg _ (hcq i v lg b hb)
      · rw [if_neg hr]
        exact hcq i v lg b hb
    · rw [if_neg hc]
      exact ih idx v lg b hb

/-- Strictly sorted candidate lists are preserved by the whole elimination
cascade. -/
theorem trioSorted (N : Nat) : ∀ f : Nat,
    (∀ (idx v : Nat) (o lg : Bool) (b : Tablero),
       (∀ j, List.Pairwise (· < ·) (getCell b j).posible) →
       ∀ j, List.Pairwise (· < ·) (getCell (setvalorF N f idx v o lg b).1 j).posible) ∧
    (∀ (l : List Nat) (idx v : Nat) (lg : Bool) (b : Tablero),
       (∀ j, List.Pairwise (· < ·) (getCell b j).posible) →
       ∀ j, List.Pairwise (· < ·) (getCell (grupoQuitarF N f l idx v lg b).1 j).posible) ∧
    (∀ (i v : Nat) (lg : Bool) (b : Tablero),
       (∀ j, List.Pairwise (· < ·) (getCell b j).posible) →
       ∀ j, List.Pairwise (· < ·) (getCell (celdaQuitarF N f i v lg b).1 j).posible) := by
  intro f
  induction f with
  | zero =>
    refine ⟨fun idx v o lg b hb => hb, ?_, fun i v lg b hb => hb⟩
    intro l idx v lg b hb
    rw [grupoQuitarF_gqGo]
    exact gqGo_sorted _ (fun i v lg b hb => hb) l idx v lg b hb
  | succ f ih =>
    obtain ⟨ihsv, ihgq, ihcq⟩ := ih
    have hcq : ∀ (i v : Nat) (lg : Bool) (b : Tablero),
        (∀ j, List.Pairwise (· < ·) (getCell b j).posible) →
        ∀ j, List.Pairwise (· < ·) (getCell (celdaQuitarF N (f + 1) i v lg b).1 j).posible := by
      intro i v lg b hb
      by_cases hc : vacia (getCell b i) = true ∧ v ∈ (getCell b i).posible
      · have herase : List.Pairwise (· < ·) ((getCell b i).posible.erase v) :=
          List.Pairwise.sublist (List.erase_sublist v (getCell b i).posible) (hb i)
        have hset := sorted_setCell b i
          { getCell b i with posible := (getCell b i).posible.erase v } hb herase
        rcases hps : (getCell b i).posible.erase v with _ | ⟨w, ws⟩
        · rw [celdaQuitarF_many N f i v lg b hc (by rw [hps]; intro x hx; cases hx)]
          exact hset
        · cases ws with
          | nil =>
            rw [celdaQuitarF_one N f i v lg b w hc hps]
            exact ihsv i w lg false _ hset
          | cons w2 tl =>
            rw [celdaQuitarF_many N f i v lg b hc (by rw [hps]; intro x hx; cases hx)]
            exact hset
      · rw [celdaQuitarF_neg N f i v lg b hc]
        exact hb
    have hgq : ∀ (l : List Nat) (idx v : Nat) (lg : Bool) (b : Tablero),
        (∀ j, List.Pairwise (· < ·) (getCell b j).posible) →
        ∀ j, List.Pairwise (· < ·) (getCell (grupoQuitarF N (f + 1) l idx v lg b).1 j).posible := by
      intro l idx v lg b hb
      rw [grupoQuitarF_gqGo]
      refine gqGo_sorted _ ?_ l idx v lg b hb
      intro i v lg b hb
      exact hcq i v lg b hb
    refine ⟨?_, hgq, hcq⟩
    intro idx v o lg b hb
    by_cases hm : v ∈ (getCell b idx).posible
    · rw [setvalorF_pos N f idx v o lg b hm]
      have h0 := sorted_setCell b idx { valor := some v, posible := [v], original := o }
        hb (by simp)
      have h1 := ihgq (filaIdx N (idx / N)) idx v lg _ h0
      have h2 := ihgq (colIdx N (idx % N)) idx v lg _ h1
      exact ihgq (cuadroIdx N (boxOf N idx)) idx v lg _ h2
    · rw [setvalorF_neg N f idx v o lg b hm]
      exact hb

theorem setvalor_sorted (N idx v : Nat) (o lg : Bool) (b : Tablero)
    (hb : ∀ j, List.Pairwise (· < ·) (getCell b j).posible) :
    ∀ j, List.Pairwise (· < ·) (getCell (setvalor N idx v o lg b).1 j).posible :=
  (trioSorted N (2 * medida b + 2)).1 idx v o lg b hb

theorem celdaQuitar_sorted (N i v : Nat) (lg : Bool) (b : Tablero)
    (hb : ∀ j, List.Pairwise (· < ·) (getCell b j).posible) :
    ∀ j, List.Pairwise (· < ·) (getCell (celdaQuitar N i v lg b).1 j).posible :=
  (trioSorted N (2 * medida b + 2)).2.2 i v lg b hb

theorem asignarCelda_sorted (N : Nat) (lg : Bool) (i : Nat) :
    ∀ (resto : List Nat) (b : Tablero),
    (∀ j, List.Pairwise (· < ·) (getCell b j).posible) →
    ∀ j, List.Pairwise (· < ·) (getCell (asignarCelda N lg i resto b).1 j).posible := by
  intro resto
  induction resto with
  | nil => intro b hb; exact hb
  | cons v rest ih =>
    intro b hb
    simp only [asignarCelda]
    exact ih _ (celdaQuitar_sorted N i v lg b hb)

theorem asignarAux_sorted (N : Nat) (lg : Bool) (comb resto : List Nat) :
    ∀ (l : List Nat) (b : Tablero),
    (∀ j, List.Pairwise (· < ·) (getCell b j).posible) →
    ∀ j, List.Pairwise (· < ·) (getCell (asignarAux N lg comb resto l b).1 j).posible := by
  intro l
  induction l with
  | nil => intro b hb; exact hb
  | cons i rest ih =>
    intro b hb
    simp only [asignarAux]
    by_cases hc : (vacia (getCell b i) && incluyeC (getCell b i) comb) = true
    · rw [if_pos hc]
      exact ih _ (asignarCelda_sorted N lg i resto b hb)
    · rw [if_neg hc]
      exact ih b hb

theorem nsInner_sorted (N : Nat) (lg : Bool) (g : List Nat) (i : Nat) :
    ∀ (vs : List Nat) (b : Tablero),
    (∀ j, List.Pairwise (· < ·) (getCell b j).posible) →
    ∀ j, List.Pairwise (· < ·) (getCell (nsInner N lg g i vs b).1 j).posible := by
  intro vs
  induction vs with
  | nil => intro b hb; exact hb
  | cons v rest ih =>
    intro b hb
    simp only [nsInner]
    by_cases hc : (grupoIncluye b g [v] == 1) = true
    · rw [if_pos hc]
      exact ih _ (setvalor_sorted N i v lg false b hb)
    · rw [if_neg hc]
      exact ih b hb

theorem nsOuter_sorted (N : Nat) (lg : Bool) (g : List Nat) :
    ∀ (l : List Nat) (b : Tablero),
    (∀ j, List.Pairwise (· < ·) (getCell b j).posible) →
    ∀ j, List.Pairwise (· < ·) (getCell (nsOuter N lg g l b).1 j).posible := by
  intro l
  induction l with
  | nil => intro b hb; exact hb
  | cons i rest ih =>
    intro b hb
    simp only [nsOuter]
    by_cases hc : vacia (getCell b i) = true
    · rw [if_pos hc]
      exact ih _ (nsInner_sorted N lg g i (getCell b i).posible b hb)
    · rw [if_neg hc]
      exact ih b hb

theorem combLoop_sorted (N : Nat) (lg : Bool) (g : List Nat) (largo : Nat) :
    ∀ (cs : List (List Nat)) (b : Tablero),
    (∀ j, List.Pairwise (· < ·) (getCell b j).posible) →
    ∀ j, List.Pairwise (· < ·) (getCell (combLoop N lg g largo cs b).1 j).posible := by
  intro cs
  induction cs with
  | nil => intro b hb; exact hb
  | cons comb rest ih =>
    intro b hb
    simp only [combLoop]
    by_cases hc : (grupoIncluye b g comb == largo && largo == comb.length) = true
    · rw [if_pos hc]
      by_cases hu : (grupoIncluyeUnit b g comb == 0) = true
      · rw [if_pos hu]
        exact ih _ (asignarAux_sorted N lg comb _ g b hb)
      · rw [if_neg hu]
        exact ih b hb
    · rw [if_neg hc]
      exact ih b hb

theorem largoLoop_sorted (N : Nat) (lg : Bool) (g : List Nat) (i : Nat) :
    ∀ (ls : List Nat) (b : Tablero),
    (∀ j, List.Pairwise (· < ·) (getCell b j).posible) →
    ∀ j, List.Pairwise (· < ·) (getCell (largoLoop N lg g i ls b).1 j).posible := by
  intro ls
  induction ls with
  | nil => intro b hb; exact hb
  | cons largo rest ih =>
    intro b hb
    simp only [largoLoop]
    exact ih _ (combLoop_sorted N lg g largo _ b hb)

theorem subsetOuter_sorted (N : Nat) (lg : Bool) (g : List Nat) :
    ∀ (l : List Nat) (b : Tablero),
    (∀ j, List.Pairwise (· < ·) (getCell b j).posible) →
    ∀ j, List.Pairwise (· < ·) (getCell (subsetOuter N lg g l b).1 j).posible := by
  intro l
  induction l with
  | nil => intro b hb; exact hb
  | cons i rest ih =>
    intro b hb
    simp only [subsetOuter]
    exact ih _ (largoLoop_sorted N lg g i _ b hb)

theorem grupoRevisar_sorted (N : Nat) (lg : Bool) (g : List Nat) (b : Tablero)
    (hb : ∀ j, List.Pairwise (· < ·) (getCell b j).posible) :
    ∀ j, List.Pairwise (· < ·) (getCell (grupoRevisar N lg g b).1 j).posible := by
  simp only [grupoRevisar]
  exact subsetOuter_sorted N lg g g _ (nsOuter_sorted N lg g g b hb)

theorem pasada_sorted (N : Nat) (lg : Bool) :
    ∀ (gs : List (List Nat)) (b : Tablero),
    (∀ j, List.Pairwise (· < ·) (getCell b j).posible) →
    ∀ j, List.Pairwise (· < ·) (getCell (pasada N lg gs b).1 j).posible := by
  intro gs
  induction gs with
  | nil => intro b hb; exact hb
  | cons g rest ih =>
    intro b hb
    simp only [pasada]
    exact ih _ (grupoRevisar_sorted N lg g b hb)

theorem revisarLoop_sorted (N : Nat) (lg : Bool) :
    ∀ (k : Nat) (b : Tablero) (tot : Nat),
    (∀ j, List.Pairwise (· < ·) (getCell b j).posible) →
    ∀ j, List.Pairwise (· < ·) (getCell (revisarLoop N lg k b tot).1 j).posible := by
  intro k
  induction k with
  | zero => intro b tot hb; exact hb
  | succ n ih =>
    intro b tot hb
    simp only [revisarLoop]
    by_cases hz : ((pasada N lg (gruposAll N) b).2 == 0) = true
    · rw [if_pos hz]
      exact pasada_sorted N lg (gruposAll N) b hb
    · rw [if_neg hz]
      exact ih _ _ (pasada_sorted N lg (gruposAll N) b hb)

theorem revisar_sorted (N : Nat) (lg : Bool) (b : Tablero)
    (hb : ∀ j, List.Pairwise (· < ·) (getCell b j).posible) :
    ∀ j, List.Pairwise (· < ·) (getCell (revisar N lg b).1 j).posible :=
  revisarLoop_sorted N lg LIMITE b 0 hb

/-- With enough fuel, the candidate loop of `resolver` is exactly the loop
the spec describes: each candidate tried on a fresh full clone, solved
recursively by `resolver` itself, the first solved clone replicated back and
its accumulated change count returned, later candidates untried. -/
theorem resolverLoop_eq_intenta (N : Nat) (lg : Bool) (b1 : Tablero) (cambios idx : Nat)
    (hvac : (getCell b1 idx).valor = none) (hidx : idx < N * N) :
    ∀ (f : Nat) (vs : List Nat), countEmpty N b1 ≤ f →
    (∀ v ∈ vs, v ∈ (getCell b1 idx).posible) →
    resolverLoop N f lg b1 cambios idx vs = intentaCandidatos N lg b1 cambios idx vs := by
  intro f vs
  induction vs with
  | nil =>
    intro _ _
    rw [resolverLoop_nil]
    rfl
  | cons v rest ih =>
    intro hf hmem
    have hmv : v ∈ (getCell b1 idx).posible := hmem v (List.mem_cons_self v rest)
    have hmv' : v ∈ (getCell (copiar N b1) idx).posible := by
      rw [getCell_copiar N b1 idx hidx]
      exact hmv
    have hok : (setvalor N idx v lg false (copiar N b1)).2 = true :=
      (setvalor_snd_iff N idx v lg false _).mpr hmv'
    have hvc : (getCell (copiar N b1) idx).valor = none := by
      rw [getCell_copiar N b1 idx hidx]
      exact hvac
    have hlt := countEmpty_setvalor_lt N idx v lg false (copiar N b1) hmv' hvc hidx
    rw [countEmpty_copiar] at hlt
    have hres : resolverF N f lg (setvalor N idx v lg false (copiar N b1)).1 =
        resolver N lg (setvalor N idx v lg false (copiar N b1)).1 :=
      resolverF_eq_resolver N f lg _ (by omega)
    rw [resolverLoop_cons_ok N f lg b1 cambios idx v rest hok, hres]
    simp only [intentaCandidatos]
    cases hres2 : resolver N lg (setvalor N idx v lg false (copiar N b1)).1 with
    | none => rfl
    | some p =>
      obtain ⟨c2, resultado⟩ := p
      dsimp only
      by_cases hver : verificar N c2 = true
      · rw [if_pos hver, if_pos hver]
      · rw [if_neg hver, if_neg hver]
        exact ih hf (fun x hx => hmem x (List.mem_cons_of_mem v hx))

/-- C1: when `resolver` reaches the search step — the board valid, the
propagation pre-pass not solving it, the scan selecting a cell — the
selected cell is the first empty cell of minimal candidate count, its
candidate list is strictly ascending, and the whole call equals the spec's
candidate loop: each candidate of that list tried in order on a fresh full
clone, the first solved clone replicated back into the original with the
accumulated change count returned, no further candidate tried. -/
theorem C1_resolver (N : Nat) (lg : Bool) (b : Tablero) (idx : Nat)
    (hval : valido N b = true)
    (hver : verificar N (revisar N lg b).1 = false)
    (hmrv : mrvIndex N (revisar N lg b).1 = some idx)
    (hlen : List.length b = N * N)
    (hsort : ∀ j, j < N * N → List.Pairwise (· < ·) (getCell b j).posible) :
    resolver N lg b =
      intentaCandidatos N lg (revisar N lg b).1 (revisar N lg b).2 idx
        (getCell (revisar N lg b).1 idx).posible ∧
    List.Pairwise (· < ·) ((getCell (revisar N lg b).1 idx).posible) ∧
    vacia (getCell (revisar N lg b).1 idx) = true ∧
    (∀ i, i < N * N → vacia (getCell (revisar N lg b).1 i) = true →
       0 < (getCell (revisar N lg b).1 i).posible.length →
       (getCell (revisar N lg b).1 idx).posible.length ≤
         (getCell (revisar N lg b).1 i).posible.length) ∧
    (∀ i, i < N * N → i < idx → vacia (getCell (revisar N lg b).1 i) = true →
       0 < (getCell (revisar N lg b).1 i).posible.length →
       (getCell (revisar N lg b).1 idx).posible.length <
         (getCell (revisar N lg b).1 i).posible.length) := by
  have hsort' : ∀ j, List.Pairwise (· < ·) (getCell b j).posible := by
    intro j
    by_cases hj : j < N * N
    · exact hsort j hj
    · rw [getCell_oob b j (by omega)]
      exact List.Pairwise.nil
  obtain ⟨h1, h2, h3, h4, h5, h6⟩ := mrvIndex_some N _ idx hmrv
  refine ⟨?_, revisar_sorted N lg b hsort' idx, h1, h5, h6⟩
  rw [show resolver N lg b = resolverF N (countEmpty N b + 1) lg b from rfl]
  rw [resolverF_rec N (countEmpty N b) lg b idx hval hver hmrv]
  apply resolverLoop_eq_intenta N lg _ _ idx ((vacia_iff _).mp h1) h4
  · exact countEmpty_mono N b _ (revisar_pres N lg b).2
  · intro v hv
    exact hv

/-- C1 at a concrete input: on the source's own 4-by-4 test puzzle the
search step selects cell 1 and `resolver` equals the spec's candidate loop
on that cell's candidate list. -/
theorem C1_resolver_witness :
    resolver 4 false (cargar 4 false gridBusqueda (nuevoTablero 4)).1 =
      intentaCandidatos 4 false
        (revisar 4 false (cargar 4 false gridBusqueda (nuevoTablero 4)).1).1
        (revisar 4 false (cargar 4 false gridBusqueda (nuevoTablero 4)).1).2 1
        (getCell
          (revisar 4 false (cargar 4 false gridBusqueda (nuevoTablero 4)).1).1 1).posible :=
  (C1_resolver 4 false (cargar 4 false gridBusqueda (nuevoTablero 4)).1 1
    (by decide) (by decide) (by decide) (by decide) (by decide)).1

end PySudoku
